import Mathlib

/-!
Verification development for the scheng real-time dataflow compositor.

The definitions below are a shallow embedding of the Rust sources:

* `scheng-graph/src/lib.rs` — graph vocabulary, patching model, `compile`;
* `scheng-runtime/src/runtime_contract.rs` — backend contract helpers
  (`input_channel_for`, `plan_output_names`);
* `scheng-runtime/src/lib.rs` — bank/scene configuration loading;
* `scheng-runtime-glow/src/lib.rs` — the per-frame executor: output naming
  resolution, input binding, the program cache and the history-tap ring.

Rust `u32` identifiers are modelled as `Nat` (identifiers are only allocated
sequentially and compared for equality, so wrap-around never matters for the
properties below), `i32` sizes as `Int`, `HashMap`s as association lists with
first-match lookup, and mutation as explicit state passing.  Fallible Rust
functions returning `Result<T, EngineError>` become `Except String T`.
-/

namespace Scheng

/-- `NodeId(pub u32)` from `scheng-graph`. -/
abbrev NodeId := Nat

/-- `PortId(pub u32)` from `scheng-graph`. -/
abbrev PortId := Nat

/-- `enum PortDir { In, Out }`. -/
inductive PortDir where
  | In : PortDir
  | Out : PortDir
deriving DecidableEq, Repr

/-- `struct Endpoint { node, port, dir }`. -/
structure Endpoint where
  node : NodeId
  port : PortId
  dir : PortDir
deriving DecidableEq, Repr

/-- `struct Edge { from: Endpoint, to: Endpoint }`.  Rust's field name `from`
is a Lean keyword, so the fields are called `fromEp`/`toEp`. -/
structure Edge where
  fromEp : Endpoint
  toEp : Endpoint
deriving DecidableEq, Repr

/-- `enum NodeClass { Source, Processor, Mixer, Output }`. -/
inductive NodeClass where
  | Source : NodeClass
  | Processor : NodeClass
  | Mixer : NodeClass
  | Output : NodeClass
deriving DecidableEq, Repr

/-- `enum NodeKind`, the full closed enumeration from `scheng-graph`. -/
inductive NodeKind where
  | ShaderSource | NoiseSource | PreviousFrame | TextureInputPass | VideoDecodeSource
  | ShaderPass | ColorCorrect | Blur | Keyer | Feedback
  | Crossfade | Add | Multiply | KeyMix | MatrixMix4
  | Window | TextureOut | PixelsOut | Syphon | Spout | Recorder | Ndi | Rtsp
deriving DecidableEq, Repr

/-- `NodeKind::class()` (renamed: `class` is a Lean keyword). -/
def NodeKind.classOf : NodeKind → NodeClass
  | .ShaderSource | .NoiseSource | .PreviousFrame | .TextureInputPass
  | .VideoDecodeSource => .Source
  | .ShaderPass | .ColorCorrect | .Blur | .Keyer | .Feedback => .Processor
  | .Crossfade | .Add | .Multiply | .KeyMix | .MatrixMix4 => .Mixer
  | .Window | .TextureOut | .PixelsOut | .Syphon | .Spout | .Recorder
  | .Ndi | .Rtsp => .Output

/-- `struct Port { id, name, dir }` (`name` is `&'static str` in Rust). -/
structure Port where
  id : PortId
  name : String
  dir : PortDir
deriving DecidableEq, Repr

/-- `struct Node { id, kind, ports }`. -/
structure Node where
  id : NodeId
  kind : NodeKind
  ports : List Port
deriving DecidableEq, Repr

/-- `struct Graph { next_node, next_port, nodes: HashMap<NodeId, Node>, edges: Vec<Edge> }`.
The node map is modelled as a list in insertion order; all lookups go through
`Graph.node` (first match by id), matching `HashMap` lookup semantics. -/
structure Graph where
  nextNode : Nat
  nextPort : Nat
  nodes : List Node
  edges : List Edge
deriving DecidableEq, Repr

/-- `Graph::new()` / `Default`. -/
def Graph.new : Graph := ⟨0, 0, [], []⟩

/-- `Graph::node(&self, id) -> Option<&Node>` (`HashMap::get`). -/
def Graph.node (g : Graph) (id : NodeId) : Option Node :=
  g.nodes.find? (fun n => n.id = id)

/-- The port list allocated by `Graph::add_node` for a given kind, starting at
port id `base` (mirrors the `match kind` in the Rust source, including the
`MatrixMix4` override of the generic class conventions). -/
def portsFor (kind : NodeKind) (base : Nat) : List Port × Nat :=
  match kind with
  | .MatrixMix4 =>
      ([⟨base, "in0", .In⟩, ⟨base + 1, "in1", .In⟩, ⟨base + 2, "in2", .In⟩,
        ⟨base + 3, "in3", .In⟩, ⟨base + 4, "out", .Out⟩], base + 5)
  | _ =>
      match kind.classOf with
      | .Source => ([⟨base, "out", .Out⟩], base + 1)
      | .Processor => ([⟨base, "in", .In⟩, ⟨base + 1, "out", .Out⟩], base + 2)
      | .Mixer => ([⟨base, "a", .In⟩, ⟨base + 1, "b", .In⟩,
                    ⟨base + 2, "out", .Out⟩], base + 3)
      | .Output => ([⟨base, "in", .In⟩], base + 1)

/-- `Graph::add_node(&mut self, kind) -> NodeId`. -/
def Graph.addNode (g : Graph) (kind : NodeKind) : Graph × NodeId :=
  let id := g.nextNode
  let pf := portsFor kind g.nextPort
  ({ nextNode := id + 1
     nextPort := pf.2
     nodes := g.nodes ++ [⟨id, kind, pf.1⟩]
     edges := g.edges }, id)

/-- `Graph::find_port(&self, node, name, dir) -> Option<PortId>`. -/
def Graph.findPort (g : Graph) (node : NodeId) (name : String) (dir : PortDir) :
    Option PortId :=
  (g.node node).bind fun n =>
    (n.ports.find? (fun p => p.dir = dir ∧ p.name = name)).map (fun p => p.id)

/-- `Graph::connect(&mut self, from, to) -> Result<(), EngineError>`.

Returned as a pair (call result, graph state after the call): Rust mutates
`self`, and every early-`return` error path leaves the graph untouched.

NOTE (faithful to the source): the two "port not found on node" checks look
the referenced port up by `p.id == from.port` / `p.id == to.port` only — the
port's own direction is *not* compared against the endpoint's stated
direction, despite the comment in the source saying it is. -/
def Graph.connect (g : Graph) (f t : Endpoint) : Except String Unit × Graph :=
  if f.dir ≠ PortDir.Out then
    (.error "connect: from endpoint must be Out", g)
  else if t.dir ≠ PortDir.In then
    (.error "connect: to endpoint must be In", g)
  else if (g.node f.node).isNone || (g.node t.node).isNone then
    (.error "connect: node not found", g)
  else if ((g.node f.node).bind fun n => n.ports.find? (fun p => p.id = f.port)).isNone then
    (.error "connect: from port not found on node", g)
  else if ((g.node t.node).bind fun n => n.ports.find? (fun p => p.id = t.port)).isNone then
    (.error "connect: to port not found on node", g)
  else if g.edges.any (fun e => e.toEp = t) then
    (.error "connect: input already connected", g)
  else
    (.ok (), { g with edges := g.edges ++ [⟨f, t⟩] })

/-- `Graph::connect_named(&mut self, from_node, from_port, to_node, to_port)`. -/
def Graph.connectNamed (g : Graph) (fromNode : NodeId) (fromPort : String)
    (toNode : NodeId) (toPort : String) : Except String Unit × Graph :=
  match g.findPort fromNode fromPort .Out with
  | none => (.error "connect_named: from port not found", g)
  | some fp =>
    match g.findPort toNode toPort .In with
    | none => (.error "connect_named: to port not found", g)
    | some tp => g.connect ⟨fromNode, fp, .Out⟩ ⟨toNode, tp, .In⟩

/-- `struct Plan { nodes: Vec<NodeId>, edges: Vec<Edge> }`. -/
structure Plan where
  nodes : List NodeId
  edges : List Edge
deriving DecidableEq, Repr

/-- The `compile` validation test for one node: an Output-class node whose
first `In` port has no incoming edge (mirrors the loop body in
`Graph::compile`). -/
def outputUndriven (edges : List Edge) (n : Node) : Bool :=
  decide (n.kind.classOf = NodeClass.Output) &&
    match n.ports.find? (fun p => p.dir = PortDir.In) with
    | some p => ! edges.any (fun e => e.toEp = ⟨n.id, p.id, PortDir.In⟩)
    | none => false

/-- The `for n in self.nodes.values()` validation loop of `Graph::compile`,
with its early `return Err(..)`. -/
def compileLoop (edges : List Edge) : List Node → Option String
  | [] => none
  | n :: rest =>
      if outputUndriven edges n then some "compile: output input not connected"
      else compileLoop edges rest

/-- `Graph::compile` with the `HashMap` iteration order made explicit: `order`
is the sequence in which the hash map yields the graph's nodes (an arbitrary
permutation of them).  The node ids are then sorted ascending, as in the
source (`nodes.sort_by_key(|id| id.0)`; Rust's sort is stable, and a stable
sort is insertion sort). -/
def Graph.compileWithOrder (g : Graph) (order : List Node) : Except String Plan :=
  match compileLoop g.edges order with
  | some msg => .error msg
  | none =>
      .ok ⟨List.insertionSort (· ≤ ·) (order.map (fun n => n.id)), g.edges⟩

/-- `Graph::compile(&self) -> Result<Plan, EngineError>`, iterating the node
map in insertion order. -/
def Graph.compile (g : Graph) : Except String Plan :=
  g.compileWithOrder g.nodes

/-- One call against the public mutating `Graph` API. -/
inductive BuildOp where
  | addNode (kind : NodeKind)
  | connect (f t : Endpoint)
  | connectNamed (fromNode : NodeId) (fromPort : String) (toNode : NodeId) (toPort : String)

/-- Apply one public API call to a graph, keeping only the graph state. -/
def applyOp (g : Graph) : BuildOp → Graph
  | .addNode kind => (g.addNode kind).1
  | .connect f t => (g.connect f t).2
  | .connectNamed a b c d => (g.connectNamed a b c d).2

/-- Replay a sequence of public API calls (in list order) from `Graph::new()`,
discarding the calls' return values (a graph value is reachable exactly when
some such sequence produces it, since the struct fields are private in Rust). -/
def buildGraph (ops : List BuildOp) : Graph :=
  ops.foldl applyOp Graph.new

/-! ### Runtime contract (`scheng-runtime/src/runtime_contract.rs`) -/

/-- `Result::is_err(..)` on embedded call results. -/
def isError {eps alpha : Type} : Except eps alpha → Bool
  | .error _ => true
  | .ok _ => false

/-- Generic `HashMap` lookup over an association-list model (first match wins,
matching the "newest insertion shadows older entries" convention used by the
insert operations below). -/
def alookup {α β : Type} [DecidableEq α] (l : List (α × β)) (k : α) : Option β :=
  (l.find? (fun p => p.1 = k)).map (fun p => p.2)

/-- `input_channel_for(kind, port_name)`: the fixed semantic port-name →
texture-channel map.  The `kind` argument is accepted and ignored
(`let _ = kind` in the source). -/
def inputChannelFor (kind : NodeKind) (portName : String) : Option Nat :=
  match kind, portName with
  | _, "in" | _, "in0" | _, "a" | _, "src" => some 0
  | _, "in1" | _, "b" | _, "src1" => some 1
  | _, "in2" | _, "c" | _, "src2" => some 2
  | _, "in3" | _, "d" | _, "src3" => some 3
  | _, _ => none

/-- `struct OutputNamePlan { primary: NodeId, named: HashMap<String, NodeId> }`. -/
structure OutputNamePlan where
  primary : NodeId
  named : List (String × NodeId)
deriving DecidableEq, Repr

/-- The `for (id, name) in pixels_out` loop of `plan_output_names`,
accumulating the unnamed list, the name→id map and the `seen` set. -/
def planOutputNamesLoop :
    List (NodeId × Option String) → List NodeId → List (String × NodeId) →
    List String → Except String (List NodeId × List (String × NodeId))
  | [], unnamed, named, _ => .ok (unnamed, named)
  | (id, nameOpt) :: rest, unnamed, named, seen =>
    match nameOpt with
    | none => planOutputNamesLoop rest (unnamed ++ [id]) named seen
    | some n =>
      if n = "main" then
        .error "output name 'main' is reserved"
      else if seen.contains n then
        .error ("duplicate output name '" ++ n ++ "'")
      else
        planOutputNamesLoop rest unnamed (named ++ [(n, id)]) (seen ++ [n])

/-- `plan_output_names(pixels_out: &[(NodeId, Option<&str>)])`: the Step-5
explicit-only multi-output contract checker. -/
def planOutputNames (pixelsOut : List (NodeId × Option String)) :
    Except String OutputNamePlan :=
  if pixelsOut = [] then .error "no PixelsOut nodes in graph"
  else
    match planOutputNamesLoop pixelsOut [] [] [] with
    | .error e => .error e
    | .ok (unnamed, named) =>
      if h : unnamed.length = 1 then
        .ok ⟨unnamed.head (by cases unnamed <;> simp_all), named⟩
      else
        .error ("expected exactly 1 unnamed PixelsOut (primary), found "
          ++ toString unnamed.length)

/-! ### Executor data (`scheng-runtime-glow/src/lib.rs`)

GL object handles (`glow::NativeTexture`, `glow::NativeProgram`,
`glow::NativeFramebuffer`) are opaque non-zero integers; they are modelled as
plain `Nat`s, since the executor only stores and compares them. -/

/-- `struct RenderTarget { tex, fbo, w, h }`. -/
structure RenderTarget where
  tex : Nat
  fbo : Nat
  w : Int
  h : Int
deriving DecidableEq, Repr

/-- `struct PingPong { curr, prev }`: the per-node ping-pong target pair. -/
structure PingPong where
  curr : RenderTarget
  prev : RenderTarget
deriving DecidableEq, Repr

/-- `struct ExecOutput { tex, fbo, width, height }`. -/
structure ExecOutput where
  tex : Nat
  fbo : Nat
  width : Int
  height : Int
deriving DecidableEq, Repr

/-- `struct ExecOutputs { primary, named: HashMap<String, ExecOutput> }`. -/
structure ExecOutputs where
  primary : ExecOutput
  named : List (String × ExecOutput)
deriving DecidableEq, Repr

/-- `struct FrameCtx` (the `time: f32` field is omitted: none of the embedded
fragments below reads it). -/
structure FrameCtx where
  width : Int
  height : Int
  frame : Nat
deriving DecidableEq, Repr

/-! ### Multi-output naming resolution (`execute_plan_outputs`) -/

/-- The `resolve_pixels_out` closure of `execute_plan_outputs`: resolve a
`PixelsOut` node's upstream render-pass target from `state.targets`
(`targets` here), without re-rendering. -/
def resolvePixelsOut (g : Graph) (targets : List (NodeId × PingPong))
    (pixelsOut : NodeId) : Except String ExecOutput :=
  match g.edges.find? (fun e => e.toEp.node = pixelsOut ∧ e.toEp.dir = PortDir.In) with
  | none => .error "execute_plan_outputs: PixelsOut has no input edge"
  | some outEdge =>
    match g.node outEdge.fromEp.node with
    | none => .error "execute_plan_outputs: output edge references missing node"
    | some fromNode =>
      if fromNode.kind = NodeKind.ShaderPass ∨ fromNode.kind.classOf = NodeClass.Mixer then
        match alookup targets fromNode.id with
        | none => .error "execute_plan_outputs: missing render target for output pass"
        | some pp => .ok ⟨pp.curr.tex, pp.curr.fbo, pp.curr.w, pp.curr.h⟩
      else
        .error "execute_plan_outputs: PixelsOut input must come from a render pass (ShaderPass or Mixer)"

/-- The `for nid in &plan.nodes` loop of `execute_plan_outputs`: walk the plan,
skip nodes that are absent, non-`PixelsOut`, or carry no explicit name
(explicit-only policy), reject the reserved name `main` and duplicates, and
resolve every explicitly named output. -/
def outputsNamingLoop (g : Graph) (targets : List (NodeId × PingPong))
    (outputNames : List (NodeId × String)) :
    List NodeId → List (String × ExecOutput) → Except String (List (String × ExecOutput))
  | [], named => .ok named
  | nid :: rest, named =>
    match g.node nid with
    | none => outputsNamingLoop g targets outputNames rest named
    | some node =>
      if node.kind ≠ NodeKind.PixelsOut then
        outputsNamingLoop g targets outputNames rest named
      else
        match alookup outputNames node.id with
        | none => outputsNamingLoop g targets outputNames rest named
        | some name =>
          if name = "main" then
            .error "execute_plan_outputs: output name 'main' is reserved (use a different explicit name)"
          else if (alookup named name).isSome then
            .error ("execute_plan_outputs: duplicate output name '" ++ name ++ "'")
          else
            match resolvePixelsOut g targets node.id with
            | .error e => .error e
            | .ok out => outputsNamingLoop g targets outputNames rest (named ++ [(name, out)])

/-- `execute_plan_outputs` after its call to `execute_plan` has returned:
`primary` is the `ExecOutput` produced by `execute_plan` and `targets` is the
`state.targets` cache it populated (the GL rendering itself is outside this
embedding; everything from line `let mut named = ...` on is modelled).  The
accumulator starts at `[("main", primary)]`, mirroring
`named.insert(OUTPUT_MAIN.to_string(), main)`. -/
def executePlanOutputsNaming (g : Graph) (plan : Plan)
    (targets : List (NodeId × PingPong)) (outputNames : List (NodeId × String))
    (primary : ExecOutput) : Except String ExecOutputs :=
  match outputsNamingLoop g targets outputNames plan.nodes [("main", primary)] with
  | .error e => .error e
  | .ok named => .ok ⟨primary, named⟩

/-! ### Input binding (`execute_plan`, lines around the render-pass loop)

For one render-pass node the executor gathers `(channel, texture)` bindings
from the node's incoming edges and then sorts them ascending by channel
(`inputs.sort_by_key(|(ch, _)| *ch)`; Rust's sort is stable, i.e. insertion
sort).  The maps below are the executor's local `outputs` (node →
`(tex, fbo, w, h)`), the persistent `state.targets`, the local
`source_outputs` (node → `(tex, w, h)`) and `props.texture_inputs`. -/

/-- The `port_channel_index` closure of `execute_plan`. -/
def portChannelIndex (g : Graph) (nodeId : NodeId) (port : PortId) : Option Nat :=
  (g.node nodeId).bind fun n =>
    (n.ports.find? (fun p => p.id = port ∧ p.dir = PortDir.In)).bind fun p =>
      inputChannelFor n.kind p.name

/-- Whether the edge targets a port named `history` on the current node
(the self-feedback branch of the binding loop). -/
def isHistoryPort (g : Graph) (nid : NodeId) (port : PortId) : Bool :=
  match g.node nid with
  | none => false
  | some n =>
    match n.ports.find? (fun p => p.id = port ∧ p.dir = PortDir.In) with
    | none => false
    | some p => p.name = "history"

/-- One iteration of the `for e in incoming_edges(node.id)` binding loop of
`execute_plan`: `.ok none` is a `continue` that contributes no binding,
`.ok (some (ch, tex))` is an `inputs.push((ch, tex))`, `.error` is an early
return. -/
def bindStep (g : Graph) (nid : NodeId) (historyTex : Nat)
    (outputs : List (NodeId × (Nat × Nat × Int × Int)))
    (targets : List (NodeId × PingPong))
    (sourceOutputs : List (NodeId × (Nat × Int × Int)))
    (texInputs : List (NodeId × Nat)) (e : Edge) :
    Except String (Option (Nat × Nat)) :=
  match portChannelIndex g nid e.toEp.port with
  | none => .ok none
  | some ch =>
    if isHistoryPort g nid e.toEp.port then
      .ok (some (ch, historyTex))
    else
      match g.node e.fromEp.node with
      | none => .error "execute_plan: edge references missing node"
      | some fromNode =>
        if fromNode.kind = NodeKind.ShaderPass ∨ fromNode.kind.classOf = NodeClass.Mixer then
          match alookup outputs fromNode.id with
          | some o => .ok (some (ch, o.1))
          | none =>
            match alookup targets fromNode.id with
            | some pp => .ok (some (ch, pp.curr.tex))
            | none => .ok none
        else if fromNode.kind = NodeKind.TextureInputPass then
          match alookup sourceOutputs fromNode.id with
          | some s => .ok (some (ch, s.1))
          | none =>
            match alookup texInputs fromNode.id with
            | some tex => .ok (some (ch, tex))
            | none => .error "TextureInputPass missing source texture"
        else if fromNode.kind = NodeKind.VideoDecodeSource then
          match alookup sourceOutputs fromNode.id with
          | some s => .ok (some (ch, s.1))
          | none => .error "VideoDecodeSource missing decoded texture"
        else
          .ok none

/-- The whole binding loop, over an (already filtered) list of incoming
edges.  Bindings are produced in edge order, matching the push order of
`inputs` in the source. -/
def bindInputsLoop (g : Graph) (nid : NodeId) (historyTex : Nat)
    (outputs : List (NodeId × (Nat × Nat × Int × Int)))
    (targets : List (NodeId × PingPong))
    (sourceOutputs : List (NodeId × (Nat × Int × Int)))
    (texInputs : List (NodeId × Nat)) :
    List Edge → Except String (List (Nat × Nat))
  | [] => .ok []
  | e :: rest =>
    match bindStep g nid historyTex outputs targets sourceOutputs texInputs e with
    | .error msg => .error msg
    | .ok none => bindInputsLoop g nid historyTex outputs targets sourceOutputs texInputs rest
    | .ok (some b) =>
      (fun l => b :: l) <$>
        bindInputsLoop g nid historyTex outputs targets sourceOutputs texInputs rest

/-- The complete per-node input binding computation of `execute_plan`:
gather bindings from the node's incoming edges, then
`inputs.sort_by_key(|(ch, _)| *ch)`. -/
def computeInputs (g : Graph) (nid : NodeId) (historyTex : Nat)
    (outputs : List (NodeId × (Nat × Nat × Int × Int)))
    (targets : List (NodeId × PingPong))
    (sourceOutputs : List (NodeId × (Nat × Int × Int)))
    (texInputs : List (NodeId × Nat)) : Except String (List (Nat × Nat)) :=
  (List.insertionSort (fun a b : Nat × Nat => a.1 ≤ b.1)) <$>
    bindInputsLoop g nid historyTex outputs targets sourceOutputs texInputs
      (g.edges.filter (fun e => e.toEp.node = nid ∧ e.toEp.dir = PortDir.In))

/-! ### Shader program cache (`execute_plan`, `RuntimeState`)

`hash_str` (a `DefaultHasher` over the source text) is kept abstract: the
theorems quantify over every function `String → Nat`, which in particular
covers the SipHash used by the Rust standard library.  Freshly compiled
program handles are drawn from a counter (`nextProg`), modelling
`glGetCreateProgram` returning distinct new handles; `compileLog` records each
key passed to `compile_program`, so "compiled at most once per key" is
`compileLog.Nodup`. -/

/-- `struct ProgramKey { vert_hash: u64, frag_hash: u64 }`. -/
structure ProgramKey where
  vertHash : Nat
  fragHash : Nat
deriving DecidableEq, Repr

/-- `struct ProgramEntry { program, key }`. -/
structure ProgramEntry where
  program : Nat
  key : ProgramKey
deriving DecidableEq, Repr

/-- The program-related part of `RuntimeState`, plus the compile log used to
state the at-most-once property. -/
structure ProgState where
  programs : List (NodeId × ProgramEntry)
  programCache : List (ProgramKey × Nat)
  nextProg : Nat
  compileLog : List ProgramKey
deriving DecidableEq, Repr

/-- `RuntimeState::new`: empty caches. -/
def ProgState.initial : ProgState := ⟨[], [], 0, []⟩

/-- The cache key of one resolved (vertex, fragment) pair:
`ProgramKey { vert_hash: hash_str(&shader.vert), frag_hash: hash_str(&shader.frag) }`. -/
def progKey (hashStr : String → Nat) (vert frag : String) : ProgramKey :=
  ⟨hashStr vert, hashStr frag⟩

/-- The shared-cache fetch of `execute_plan`:
`if let Some(p) = state.program_cache.get(&key) { *p } else { compile_program(..)?;
insert }` — a fresh handle is drawn from `nextProg` and the compile is logged. -/
def fetchProgram (st : ProgState) (key : ProgramKey) : Nat × ProgState :=
  match alookup st.programCache key with
  | some p => (p, st)
  | none =>
      (st.nextProg,
       { st with
          programCache := (key, st.nextProg) :: st.programCache
          nextProg := st.nextProg + 1
          compileLog := st.compileLog ++ [key] })

/-- `let needs_rebind = ...; if needs_rebind { state.programs.insert(node.id,
ProgramEntry { program: cached_prog, key }) }`. -/
def rebindPrograms (st1 : ProgState) (nid : NodeId) (cachedProg : Nat)
    (key : ProgramKey) : ProgState :=
  if (match alookup st1.programs nid with
      | some stored => decide (stored.key ≠ key)
      | none => true) = true then
    { st1 with programs := (nid, ⟨cachedProg, key⟩) :: st1.programs }
  else st1

/-- `let prog = state.programs.get(&node.id).ok_or(..)?.program`. -/
def finishProgram (st2 : ProgState) (nid : NodeId) : Except String (Nat × ProgState) :=
  match alookup st2.programs nid with
  | some e => .ok (e.program, st2)
  | none => .error "execute_plan: program missing after build"

/-- The program-cache section of the render-pass loop in `execute_plan`
(from `let key = ProgramKey { ... }` to `let prog = ...`): compute the key,
fetch or compile-and-insert the shared program, rebind the node's entry when
its key changed, and return the node's bound program. -/
def ensureProgram (hashStr : String → Nat) (st : ProgState) (nid : NodeId)
    (vert frag : String) : Except String (Nat × ProgState) :=
  let key := progKey hashStr vert frag
  let fetched := fetchProgram st key
  finishProgram (rebindPrograms fetched.2 nid fetched.1 key) nid

/-- Run the program-cache step for a sequence of render passes (node id plus
resolved vertex/fragment text), returning the program handle each pass drew
for this frame. -/
def runPasses (hashStr : String → Nat) :
    List (NodeId × String × String) → ProgState → Except String (List Nat × ProgState)
  | [], st => .ok ([], st)
  | (nid, vert, frag) :: rest, st =>
    match ensureProgram hashStr st nid vert frag with
    | .error e => .error e
    | .ok (prog, st1) =>
      match runPasses hashStr rest st1 with
      | .error e => .error e
      | .ok (progs, st2) => .ok (prog :: progs, st2)

/-- The cache key of one pass's resolved shader text. -/
def keyOf (hashStr : String → Nat) (p : NodeId × String × String) : ProgramKey :=
  ⟨hashStr p.2.1, hashStr p.2.2⟩

/-- The cache invariant maintained across passes: every logged compile sits
in the shared cache (each key is compiled at most once), and every per-node
binding agrees with the shared cache. -/
def progInv (st : ProgState) : Prop :=
  st.compileLog.Nodup
  ∧ (∀ k ∈ st.compileLog, (alookup st.programCache k).isSome = true)
  ∧ (∀ nid e, alookup st.programs nid = some e →
      alookup st.programCache e.key = some e.program)

/-- The runtime state after three passes with shaders ("v","f"), ("v","f"),
("vv","f") under the `String.length` hash. -/
def progStateEx : ProgState :=
  ⟨[(2, ⟨1, ⟨2, 1⟩⟩), (1, ⟨0, ⟨1, 1⟩⟩), (0, ⟨0, ⟨1, 1⟩⟩)],
   [(⟨2, 1⟩, 1), (⟨1, 1⟩, 0)], 2, [⟨1, 1⟩, ⟨2, 1⟩]⟩

/-! ### Temporal history tap (`HistoryTapSink`)

GPU render targets are created through a fresh-handle counter (`supply`),
modelling GL returning new object handles; the blit in `consume` copies pixel
*content* into an existing slot and never changes the slot's handles, so it
has no representation here beyond the write-index advance. -/

/-- `struct HistoryTapSink { frames: Vec<RenderTarget>, write_idx }`.  `cap`
models `frames.capacity()` (reserved at `new(len)` as `len.max(1)` and by
every reallocation as the requested length). -/
structure HistoryTapSink where
  frames : List RenderTarget
  writeIdx : Nat
  cap : Nat
deriving DecidableEq, Repr

/-- `HistoryTapSink::new(len)`: no GPU targets yet, capacity `len.max(1)`. -/
def HistoryTapSink.new (len : Nat) : HistoryTapSink := ⟨[], 0, max len 1⟩

/-- `HistoryTapSink::tex_at(age)`: `0 = newest, 1 = previous, ...`.  The index
arithmetic is verbatim from the source: `age % n`, `newest = (write_idx + n -
1) % n`, `idx = (newest + n - age) % n`.  The source indexes
`self.frames[idx]` directly; `idx` is always `< n`, so the `get?` lookup
below never misses (see `texAt_index_lt`). -/
def HistoryTapSink.texAt (s : HistoryTapSink) (age : Nat) : Option Nat :=
  if s.frames.length = 0 then none
  else
    (s.frames.get? (((s.writeIdx + s.frames.length - 1) % s.frames.length
        + s.frames.length - age % s.frames.length) % s.frames.length)).map
      (fun rt => rt.tex)

/-- `HistoryTapSink::tex_latest()`. -/
def HistoryTapSink.texLatest (s : HistoryTapSink) : Option Nat := s.texAt 0

/-- `create_render_target(gl, w, h)` with an explicit fresh-handle supply. -/
def createRenderTarget (w h : Int) (supply : Nat) : RenderTarget × Nat :=
  (⟨supply, supply + 1, w, h⟩, supply + 2)

/-- Allocate `k` render targets (`for _ in 0..want_len { frames.push(..) }`). -/
def allocFrames (w h : Int) : Nat → Nat → List RenderTarget × Nat
  | 0, supply => ([], supply)
  | k + 1, supply =>
    let rt := createRenderTarget w h supply
    let rest := allocFrames w h k rt.2
    (rt.1 :: rest.1, rest.2)

/-- `HistoryTapSink::ensure_allocated(want_len, w, h)`: reallocate when the
length differs from `want_len.max(1)` or when the first slot's size differs
from `(w, h)`; reallocation resets `write_idx` to 0. -/
def HistoryTapSink.ensureAllocated (s : HistoryTapSink) (wantLen : Nat)
    (w h : Int) (supply : Nat) : HistoryTapSink × Nat :=
  let want := max wantLen 1
  if s.frames.length ≠ want then
    let a := allocFrames w h want supply
    ({ frames := a.1, writeIdx := 0, cap := want }, a.2)
  else
    match s.frames.head? with
    | some rt0 =>
      if rt0.w ≠ w ∨ rt0.h ≠ h then
        let a := allocFrames w h want supply
        ({ frames := a.1, writeIdx := 0, cap := want }, a.2)
      else (s, supply)
    | none => (s, supply)

/-- The texture handle of the ring slot `consume` blits into
(`let dst = &self.frames[self.write_idx % self.frames.len()]`), evaluated
after `ensure_allocated`. -/
def HistoryTapSink.writtenSlot (s : HistoryTapSink) (out : ExecOutput)
    (supply : Nat) : Option Nat :=
  if (s.ensureAllocated (max s.cap 1) out.width out.height supply).1.frames.length = 0 then
    none
  else
    ((s.ensureAllocated (max s.cap 1) out.width out.height supply).1.frames.get?
        ((s.ensureAllocated (max s.cap 1) out.width out.height supply).1.writeIdx %
          (s.ensureAllocated (max s.cap 1) out.width out.height supply).1.frames.length)).map
      (fun rt => rt.tex)

/-- `OutputSink::consume for HistoryTapSink`: ensure the ring matches the
output's size, blit into the slot at `write_idx % len` (content only), then
advance `write_idx = (write_idx + 1) % len`. -/
def HistoryTapSink.consume (s : HistoryTapSink) (out : ExecOutput)
    (supply : Nat) : HistoryTapSink × Nat :=
  let ea := s.ensureAllocated (max s.cap 1) out.width out.height supply
  let s1 := ea.1
  if s1.frames.length = 0 then (s1, ea.2)
  else ({ s1 with writeIdx := (s1.writeIdx + 1) % s1.frames.length }, ea.2)

/-! ### Bank/scene configuration (`scheng-runtime/src/lib.rs`) -/

/-- `enum MatrixPreset`. -/
inductive MatrixPreset where
  | Solo0 | Solo1 | Solo2 | Solo3 | Quad | Sum01 | Sum23
deriving DecidableEq, Repr

/-- `preset_from_str`: the fixed user-facing name table (with aliases). -/
def presetFromStr (s : String) : Option MatrixPreset :=
  match s with
  | "solo0" | "solo_0" | "Solo0" => some .Solo0
  | "solo1" | "solo_1" | "Solo1" => some .Solo1
  | "solo2" | "solo_2" | "Solo2" => some .Solo2
  | "solo3" | "solo_3" | "Solo3" => some .Solo3
  | "quad" | "Quad" => some .Quad
  | "sum01" | "Sum01" => some .Sum01
  | "sum23" | "Sum23" => some .Sum23
  | _ => none

/-- `struct SceneDef { name, preset }`. -/
structure SceneDef where
  name : String
  preset : MatrixPreset
deriving DecidableEq, Repr

/-- `struct BankDef { name, scenes }`. -/
structure BankDef where
  name : String
  scenes : List SceneDef
deriving DecidableEq, Repr

/-- `struct BankSet { banks }`. -/
structure BankSet where
  banks : List BankDef
deriving DecidableEq, Repr

/-- `JsonScene` from the `serde` derive block inside `from_json_path`. -/
structure JsonScene where
  name : String
  preset : String
deriving DecidableEq, Repr

/-- `JsonBank` from the `serde` derive block inside `from_json_path`. -/
structure JsonBank where
  name : String
  scenes : List JsonScene
deriving DecidableEq, Repr

/-- `JsonRoot { banks }` from the `serde` derive block. -/
structure JsonRoot where
  banks : List JsonBank
deriving DecidableEq, Repr

/-- The `for s in b.scenes` loop: resolve each scene's preset string through
the fixed table, failing on the first unknown one. -/
def scenesLoop : List JsonScene → Except String (List SceneDef)
  | [] => .ok []
  | s :: rest =>
    match presetFromStr s.preset with
    | none =>
        .error ("unknown preset '" ++ s.preset ++ "' in scene '" ++ s.name ++ "'")
    | some p => (fun l => SceneDef.mk s.name p :: l) <$> scenesLoop rest

/-- The `for b in root.banks` loop: banks without scenes are skipped
(`continue`), every kept bank has its scenes resolved. -/
def banksLoop : List JsonBank → Except String (List BankDef)
  | [] => .ok []
  | b :: rest =>
    if b.scenes = [] then banksLoop rest
    else
      match scenesLoop b.scenes with
      | .error e => .error e
      | .ok scenes => (fun l => BankDef.mk b.name scenes :: l) <$> banksLoop rest

/-- The validation part of `BankSet::from_json_path`, applied to an already
deserialized `JsonRoot`. -/
def bankSetFromRoot (root : JsonRoot) : Except String BankSet :=
  if root.banks = [] then .error "json has no banks"
  else
    match banksLoop root.banks with
    | .error e => .error e
    | .ok banks =>
      if banks = [] then .error "json banks had no valid scenes"
      else .ok ⟨banks⟩

/-- Modelled from the spec: the file read and `serde_json` deserialization
step of `BankSet::from_json_path` lives outside this repository (the
`serde_json` crate).  Per the spec, a JSON document whose top level is missing
the `banks` key fails deserialization, and serde reports the missing field by
name ("missing field `banks` ..."), which the source wraps as
`format!("parse json: {e}")`.  A present `banks` key deserializes to its list
of banks, `none` stands for a document without the key. -/
def parseBanksDoc (doc : Option (List JsonBank)) : Except String JsonRoot :=
  match doc with
  | none => .error "parse json: missing field `banks`"
  | some bs => .ok ⟨bs⟩

/-- `BankSet::from_json_path`, from the deserialization step on (the file-read
step is external I/O and out of scope). -/
def bankSetFromJson (doc : Option (List JsonBank)) : Except String BankSet :=
  match parseBanksDoc doc with
  | .error e => .error e
  | .ok root => bankSetFromRoot root

/-- The sort relation of `inputs.sort_by_key(|(ch, _)| *ch)`: compare
bindings by channel. -/
instance : IsTotal (Nat × Nat) (fun a b => a.1 ≤ b.1) :=
  ⟨fun a b => Nat.le_total a.1 b.1⟩

instance : IsTrans (Nat × Nat) (fun a b => a.1 ≤ b.1) :=
  ⟨fun _ _ _ hab hbc => Nat.le_trans hab hbc⟩

instance : IsAntisymm (Nat × Nat) (fun a b => a.1 < b.1) :=
  ⟨fun _ _ h1 h2 => absurd h2 (Nat.lt_asymm h1)⟩

/-- "`msg` mentions `sub`": `sub` occurs in `msg` as a substring. -/
def mentions (msg sub : String) : Prop := ∃ pre post, msg = pre ++ sub ++ post

/-! ### Concrete instances used by witnesses and counterexamples -/

/-- A two-node graph: ShaderPass (ports `in` = 0, `out` = 1) and PixelsOut
(port `in` = 2), not yet wired. -/
def passOutGraph : Graph := buildGraph [.addNode .ShaderPass, .addNode .PixelsOut]

/-- `passOutGraph` with the pass's `out` port wired to the output's `in`. -/
def chainGraph : Graph := (passOutGraph.connect ⟨0, 1, .Out⟩ ⟨1, 2, .In⟩).2

/-- The API calls building `chainGraph` from scratch. -/
def chainOps : List BuildOp :=
  [.addNode .ShaderPass, .addNode .PixelsOut, .connect ⟨0, 1, .Out⟩ ⟨1, 2, .In⟩]

/-- Well-formedness of Output-class nodes as produced by `add_node`: a single
`in` port.  Holds for every graph reachable through the public API. -/
def outputsWF (g : Graph) : Prop :=
  ∀ n ∈ g.nodes, n.kind.classOf = NodeClass.Output →
    ∃ pid, n.ports = [⟨pid, "in", PortDir.In⟩]

/-- ShaderPass 0 feeding two `PixelsOut` nodes 1 and 2. -/
def twoOutGraph : Graph :=
  buildGraph [.addNode .ShaderPass, .addNode .PixelsOut, .addNode .PixelsOut,
    .connectNamed 0 "out" 1 "in", .connectNamed 0 "out" 2 "in"]

/-- ShaderPass 0 feeding three `PixelsOut` nodes 1, 2 and 3. -/
def threeOutGraph : Graph :=
  buildGraph [.addNode .ShaderPass, .addNode .PixelsOut, .addNode .PixelsOut,
    .addNode .PixelsOut, .connectNamed 0 "out" 1 "in", .connectNamed 0 "out" 2 "in",
    .connectNamed 0 "out" 3 "in"]

/-- A ping-pong pair whose current target is texture 10 / fbo 11 at 640×480. -/
def pp640 : PingPong := ⟨⟨10, 11, 640, 480⟩, ⟨12, 13, 640, 480⟩⟩

/-- The `ExecOutput` produced by rendering into `pp640.curr`. -/
def out640 : ExecOutput := ⟨10, 11, 640, 480⟩

/-- Two ShaderPass nodes 0 and 1 feeding a Crossfade mixer 2 (edge into `b`
inserted before the edge into `a`), mixer feeding PixelsOut 3. -/
def mixGraph : Graph :=
  buildGraph [.addNode .ShaderPass, .addNode .ShaderPass, .addNode .Crossfade,
    .addNode .PixelsOut, .connectNamed 1 "out" 2 "b", .connectNamed 0 "out" 2 "a",
    .connectNamed 2 "out" 3 "in"]

/-- A three-slot history tap after one captured frame. -/
def htRing : HistoryTapSink := ((HistoryTapSink.new 3).consume out640 50).1

end Scheng

/-! ## Theorems -/

namespace Scheng

/-- C3 (failing-input evaluation): `Graph::connect` is claimed to fail when an
endpoint's port "does not match its stated direction".  Evaluating the
embedded `connect` shows the opposite: port 0 of the ShaderPass is its `in`
port with direction `In`, yet a from-endpoint naming port 0 with stated
direction `Out` is accepted and the edge is appended — the implementation
checks only that the port id belongs to the node, never the port's own
direction (contradicting the comment right above that check in the source). -/
theorem connect_accepts_direction_mismatch :
    (passOutGraph.node 0).map (fun n => n.ports.find? (fun p => p.id = 0)) =
      some (some ⟨0, "in", PortDir.In⟩)
    ∧ (passOutGraph.connect ⟨0, 0, .Out⟩ ⟨1, 2, .In⟩).1 = .ok ()
    ∧ (passOutGraph.connect ⟨0, 0, .Out⟩ ⟨1, 2, .In⟩).2.edges =
        [⟨⟨0, 0, .Out⟩, ⟨1, 2, .In⟩⟩] :=
  ⟨rfl, rfl, rfl⟩

/-- C4: a `connect` call targeting an In endpoint that already has a driving
edge returns an error and leaves the edge list exactly as it was. -/
theorem connect_double_driver_rejected (g : Graph) (f t : Endpoint)
    (h : ∃ e ∈ g.edges, e.toEp = t) :
    isError (g.connect f t).1 ∧ (g.connect f t).2.edges = g.edges := by
  have hany : g.edges.any (fun e => e.toEp = t) = true := by
    rw [List.any_eq_true]
    obtain ⟨e, he, het⟩ := h
    exact ⟨e, he, by simpa using het⟩
  unfold Graph.connect
  split_ifs <;> simp_all [isError]

/-- Witness for `connect_double_driver_rejected`: re-connecting the
already-driven `in` port of the PixelsOut in `chainGraph`. -/
theorem connect_double_driver_rejected_witness :
    isError (chainGraph.connect ⟨0, 1, .Out⟩ ⟨1, 2, .In⟩).1
    ∧ (chainGraph.connect ⟨0, 1, .Out⟩ ⟨1, 2, .In⟩).2.edges = chainGraph.edges :=
  connect_double_driver_rejected chainGraph ⟨0, 1, .Out⟩ ⟨1, 2, .In⟩
    ⟨⟨⟨0, 1, .Out⟩, ⟨1, 2, .In⟩⟩, by decide, by decide⟩

/-! ### History tap lemmas (towards C10) -/

theorem allocFrames_length (w h : Int) :
    ∀ k supply, (allocFrames w h k supply).1.length = k
  | 0, _ => rfl
  | k + 1, supply => by
      simp [allocFrames, allocFrames_length w h k]

theorem ensureAllocated_length (s : HistoryTapSink) (wantLen : Nat) (w h : Int)
    (supply : Nat) :
    (s.ensureAllocated wantLen w h supply).1.frames.length = max wantLen 1 := by
  unfold HistoryTapSink.ensureAllocated
  by_cases h1 : s.frames.length ≠ max wantLen 1
  · simp [h1, allocFrames_length]
  · rw [if_neg (by simpa using h1)]
    rcases hh : s.frames.head? with _ | rt0
    · simpa using (by omega : s.frames.length = max wantLen 1)
    · by_cases h2 : rt0.w ≠ w ∨ rt0.h ≠ h
      · simp [h2, allocFrames_length]
      · simp only [if_neg h2]
        omega

/-- The index arithmetic of `tex_at(0)` right after a write: the newest slot
is the one `consume` just blitted into. -/
theorem ring_index_newest (wi n : Nat) (hn : 0 < n) :
    ((wi + 1) % n + n - 1) % n + n - 0 % n ≡ wi [MOD n] := by
  have e1 : (wi + 1) % n + n - 1 = (wi + 1) % n + (n - 1) := by omega
  have e2 : ((wi + 1) % n + (n - 1)) % n = (wi + 1 + (n - 1)) % n :=
    Nat.mod_add_mod _ _ _
  have e3 : wi + 1 + (n - 1) = wi + n := by omega
  calc ((wi + 1) % n + n - 1) % n + n - 0 % n
      = (wi + n) % n + n := by rw [e1, e2, e3, Nat.zero_mod, Nat.sub_zero]
    _ = wi % n + n := by rw [Nat.add_mod_right]
    _ ≡ wi % n [MOD n] := Nat.add_modEq_right
    _ ≡ wi [MOD n] := Nat.mod_modEq wi n

theorem texAt_index_lt (s : HistoryTapSink) (age : Nat) (h : s.frames.length ≠ 0) :
    ((s.writeIdx + s.frames.length - 1) % s.frames.length
        + s.frames.length - age % s.frames.length) % s.frames.length <
      s.frames.length :=
  Nat.mod_lt _ (Nat.pos_of_ne_zero h)

theorem texAt_none_iff (s : HistoryTapSink) (age : Nat) :
    s.texAt age = none ↔ s.frames = [] := by
  unfold HistoryTapSink.texAt
  split_ifs with h
  · simp [List.length_eq_zero.mp h]
  · constructor
    · intro hc
      rw [List.get?_eq_get (texAt_index_lt s age h)] at hc
      simp at hc
    · intro hc
      exact absurd (by simp [hc] : s.frames.length = 0) h

theorem texAt_mod (s : HistoryTapSink) (age : Nat) (_h : s.frames ≠ []) :
    s.texAt age = s.texAt (age % s.frames.length) := by
  unfold HistoryTapSink.texAt
  rw [Nat.mod_mod_of_dvd age (dvd_refl s.frames.length)]

theorem consume_frames (s : HistoryTapSink) (out : ExecOutput) (supply : Nat) :
    (s.consume out supply).1.frames =
      (s.ensureAllocated (max s.cap 1) out.width out.height supply).1.frames := by
  have hlen := ensureAllocated_length s (max s.cap 1) out.width out.height supply
  unfold HistoryTapSink.consume
  rw [if_neg (by omega)]

theorem consume_writeIdx (s : HistoryTapSink) (out : ExecOutput) (supply : Nat) :
    (s.consume out supply).1.writeIdx =
      ((s.ensureAllocated (max s.cap 1) out.width out.height supply).1.writeIdx + 1) %
        (s.ensureAllocated (max s.cap 1) out.width out.height supply).1.frames.length := by
  have hlen := ensureAllocated_length s (max s.cap 1) out.width out.height supply
  unfold HistoryTapSink.consume
  rw [if_neg (by omega)]

theorem consume_texAt_isSome (s : HistoryTapSink) (out : ExecOutput) (supply : Nat)
    (age : Nat) : ((s.consume out supply).1.texAt age).isSome := by
  have hlen := ensureAllocated_length s (max s.cap 1) out.width out.height supply
  have hne : (s.consume out supply).1.frames.length ≠ 0 := by
    rw [consume_frames]; omega
  unfold HistoryTapSink.texAt
  rw [if_neg hne, List.get?_eq_get (texAt_index_lt (s.consume out supply).1 age hne)]
  rfl

theorem consume_texAt_zero (s : HistoryTapSink) (out : ExecOutput) (supply : Nat) :
    ((s.consume out supply).1.texAt 0 = s.writtenSlot out supply)
    ∧ (s.writtenSlot out supply).isSome := by
  have hlen := ensureAllocated_length s (max s.cap 1) out.width out.height supply
  have hne1 :
      (s.ensureAllocated (max s.cap 1) out.width out.height supply).1.frames.length ≠ 0 := by
    omega
  have hpos :
      0 < (s.ensureAllocated (max s.cap 1) out.width out.height supply).1.frames.length :=
    Nat.pos_of_ne_zero hne1
  have hcf := consume_frames s out supply
  have hcw := consume_writeIdx s out supply
  have hne2 : (s.consume out supply).1.frames.length ≠ 0 := by rw [hcf]; exact hne1
  constructor
  · unfold HistoryTapSink.texAt HistoryTapSink.writtenSlot
    rw [if_neg hne2, if_neg hne1, hcf, hcw]
    congr 2
    exact ring_index_newest _ _ hpos
  · unfold HistoryTapSink.writtenSlot
    rw [if_neg hne1, List.get?_eq_get (Nat.mod_lt _ hpos)]
    rfl

/-- C10: `HistoryTapSink::tex_at(age)` is `None` exactly when the ring is
unallocated (in particular right after `new`, before any frame is captured,
and never after a `consume`); once the ring holds `n > 0` slots the lookup
wraps, `tex_at(age) = tex_at(age % n)`; and immediately after a `consume`,
`tex_at(0)` returns exactly the slot that `consume` just wrote
(`frames[write_idx % len]` before the index advance). -/
theorem history_tap_tex_at_spec :
    (∀ (s : HistoryTapSink) (age : Nat), s.texAt age = none ↔ s.frames = [])
    ∧ (∀ len age, (HistoryTapSink.new len).texAt age = none)
    ∧ (∀ (s : HistoryTapSink) (age : Nat), s.frames ≠ [] →
        s.texAt age = s.texAt (age % s.frames.length))
    ∧ (∀ (s : HistoryTapSink) (out : ExecOutput) (supply : Nat),
        ((s.consume out supply).1.texAt 0 = s.writtenSlot out supply)
        ∧ (s.writtenSlot out supply).isSome
        ∧ ∀ age, ((s.consume out supply).1.texAt age).isSome) := by
  refine ⟨texAt_none_iff, fun len age => rfl, texAt_mod, fun s out supply => ?_⟩
  obtain ⟨h1, h2⟩ := consume_texAt_zero s out supply
  exact ⟨h1, h2, consume_texAt_isSome s out supply⟩

/-- Witness for `history_tap_tex_at_spec` on a concrete 3-slot ring. -/
theorem history_tap_tex_at_spec_witness :
    ((htRing.texAt 1 = none ↔ htRing.frames = [])
    ∧ (HistoryTapSink.new 3).texAt 0 = none
    ∧ htRing.texAt 5 = htRing.texAt (5 % htRing.frames.length)
    ∧ (htRing.consume out640 60).1.texAt 0 = htRing.writtenSlot out640 60) :=
  ⟨history_tap_tex_at_spec.1 htRing 1,
   history_tap_tex_at_spec.2.1 3 0,
   history_tap_tex_at_spec.2.2.1 htRing 5 (by decide),
   (history_tap_tex_at_spec.2.2.2 htRing out640 60).1⟩

/-! ### Bank/scene loader lemmas (towards C9) -/

theorem mentions_unknown_preset (p nm : String) :
    mentions ("unknown preset '" ++ p ++ "' in scene '" ++ nm ++ "'")
      "unknown preset" := by
  refine ⟨"", " '" ++ p ++ ("' in scene '" ++ nm ++ "'"), ?_⟩
  conv_rhs => rw [String.empty_append, ← String.append_assoc,
    ← String.append_assoc "unknown preset" " '" p]
  rw [show ("unknown preset" : String) ++ " '" = "unknown preset '" from rfl]
  simp [String.append_assoc]

theorem scenesLoop_error_of_unknown {scenes : List JsonScene}
    (h : ∃ s ∈ scenes, presetFromStr s.preset = none) :
    ∃ msg, scenesLoop scenes = .error msg := by
  induction scenes with
  | nil => simp at h
  | cons s rest ih =>
    cases hps : presetFromStr s.preset with
    | none =>
      exact ⟨"unknown preset '" ++ s.preset ++ "' in scene '" ++ s.name ++ "'",
        by simp [scenesLoop, hps]⟩
    | some p =>
      have hrest : ∃ t ∈ rest, presetFromStr t.preset = none := by
        rcases h with ⟨t, ht, hp⟩
        rcases List.mem_cons.mp ht with rfl | htr
        · rw [hps] at hp; cases hp
        · exact ⟨t, htr, hp⟩
      obtain ⟨msg, hmsg⟩ := ih hrest
      exact ⟨msg, by simp [scenesLoop, hps, hmsg, Except.map]⟩

theorem scenesLoop_error_mentions {scenes : List JsonScene} {msg : String}
    (h : scenesLoop scenes = .error msg) : mentions msg "unknown preset" := by
  induction scenes with
  | nil => cases h
  | cons s rest ih =>
    cases hps : presetFromStr s.preset with
    | none =>
      rw [scenesLoop, hps] at h
      cases h
      exact mentions_unknown_preset s.preset s.name
    | some p =>
      rw [scenesLoop, hps] at h
      cases hrest : scenesLoop rest with
      | error m2 =>
        rw [hrest] at h
        cases h
        exact ih hrest
      | ok l => rw [hrest] at h; cases h

theorem scenesLoop_length {scenes : List JsonScene} {l : List SceneDef}
    (h : scenesLoop scenes = .ok l) : l.length = scenes.length := by
  induction scenes generalizing l with
  | nil => cases h; rfl
  | cons s rest ih =>
    cases hps : presetFromStr s.preset with
    | none => rw [scenesLoop, hps] at h; cases h
    | some p =>
      rw [scenesLoop, hps] at h
      cases hrest : scenesLoop rest with
      | error m2 => rw [hrest] at h; cases h
      | ok l2 =>
        rw [hrest] at h
        cases h
        simp [ih hrest]

theorem banksLoop_error_of_unknown {bs : List JsonBank}
    (h : ∃ b ∈ bs, ∃ s ∈ b.scenes, presetFromStr s.preset = none) :
    ∃ msg, banksLoop bs = .error msg ∧ mentions msg "unknown preset" := by
  induction bs with
  | nil => simp at h
  | cons b rest ih =>
    rcases h with ⟨b2, hb2, hsc⟩
    rcases List.mem_cons.mp hb2 with rfl | hbr
    · -- a scene of the head bank has an unknown preset
      have hne : b2.scenes ≠ [] := by
        rcases hsc with ⟨s, hs, _⟩
        exact List.ne_nil_of_mem hs
      obtain ⟨msg, hmsg⟩ := scenesLoop_error_of_unknown hsc
      refine ⟨msg, ?_, scenesLoop_error_mentions hmsg⟩
      simp [banksLoop, hne, hmsg]
    · -- the unknown preset sits in a later bank
      obtain ⟨msg, hmsg, hm⟩ := ih ⟨b2, hbr, hsc⟩
      by_cases hbe : b.scenes = []
      · exact ⟨msg, by simp [banksLoop, hbe, hmsg], hm⟩
      · cases hsl : scenesLoop b.scenes with
        | error m2 =>
          exact ⟨m2, by simp [banksLoop, hbe, hsl],
            scenesLoop_error_mentions hsl⟩
        | ok l =>
          exact ⟨msg, by simp [banksLoop, hbe, hsl, hmsg, Except.map], hm⟩

theorem banksLoop_scenes_nonempty {bs : List JsonBank} {banks : List BankDef}
    (h : banksLoop bs = .ok banks) : ∀ b ∈ banks, b.scenes ≠ [] := by
  induction bs generalizing banks with
  | nil => cases h; simp
  | cons b rest ih =>
    by_cases hbe : b.scenes = []
    · rw [banksLoop, if_pos hbe] at h
      exact ih h
    · rw [banksLoop, if_neg hbe] at h
      cases hsl : scenesLoop b.scenes with
      | error m => rw [hsl] at h; cases h
      | ok l =>
        rw [hsl] at h
        cases hrest : banksLoop rest with
        | error m => rw [hrest] at h; cases h
        | ok banks2 =>
          rw [hrest] at h
          cases h
          intro b2 hb2
          rcases List.mem_cons.mp hb2 with rfl | hb2r
          · have hl := scenesLoop_length hsl
            simp only []
            intro hc
            rw [hc] at hl
            simp at hl
            exact hbe (List.length_eq_zero.mp hl.symm)
          · exact ih hrest b2 hb2r

/-- C9: the bank/scene loader fails on an empty top-level `banks` array with
an error mentioning "banks"/"empty" ("json has no banks"); fails on a document
missing the `banks` key with an error mentioning "missing"/"key" (the
spec-modelled serde step, wrapped as "parse json: ..."); fails whenever some
bank's scene carries a preset string outside the fixed name table, with an
error mentioning "unknown preset"; and every bank retained in a successful
result has at least one scene. -/
theorem bank_loader_contract :
    (∀ root : JsonRoot, root.banks = [] →
        ∃ msg, bankSetFromRoot root = .error msg ∧
          (mentions msg "banks" ∨ mentions msg "empty"))
    ∧ (∃ msg, bankSetFromJson none = .error msg ∧
        (mentions msg "missing" ∨ mentions msg "key"))
    ∧ (∀ root : JsonRoot,
        (∃ b ∈ root.banks, ∃ s ∈ b.scenes, presetFromStr s.preset = none) →
        ∃ msg, bankSetFromRoot root = .error msg ∧ mentions msg "unknown preset")
    ∧ (∀ (root : JsonRoot) (bs : BankSet), bankSetFromRoot root = .ok bs →
        ∀ b ∈ bs.banks, b.scenes ≠ []) := by
  refine ⟨?_, ?_, ?_, ?_⟩
  · intro root hr
    refine ⟨"json has no banks", by simp [bankSetFromRoot, hr], Or.inl ?_⟩
    exact ⟨"json has no ", "", by decide⟩
  · refine ⟨"parse json: missing field `banks`", rfl, Or.inl ?_⟩
    exact ⟨"parse json: ", " field `banks`", by decide⟩
  · intro root h
    have hne : root.banks ≠ [] := by
      rcases h with ⟨b, hb, _⟩
      exact List.ne_nil_of_mem hb
    obtain ⟨msg, hmsg, hm⟩ := banksLoop_error_of_unknown h
    exact ⟨msg, by simp [bankSetFromRoot, hne, hmsg], hm⟩
  · intro root bs h
    unfold bankSetFromRoot at h
    by_cases hr : root.banks = []
    · rw [if_pos hr] at h; cases h
    · rw [if_neg hr] at h
      cases hbl : banksLoop root.banks with
      | error m => rw [hbl] at h; cases h
      | ok banks =>
        rw [hbl] at h
        dsimp only at h
        by_cases hbe : banks = []
        · rw [if_pos hbe] at h; cases h
        · rw [if_neg hbe] at h
          cases h
          exact banksLoop_scenes_nonempty hbl

/-- Witness for `bank_loader_contract` on concrete documents. -/
theorem bank_loader_contract_witness :
    (∃ msg, bankSetFromRoot ⟨[]⟩ = .error msg ∧
      (mentions msg "banks" ∨ mentions msg "empty"))
    ∧ (∃ msg, bankSetFromJson none = .error msg ∧
        (mentions msg "missing" ∨ mentions msg "key"))
    ∧ (∃ msg, bankSetFromRoot ⟨[⟨"B", [⟨"s", "solOO"⟩]⟩]⟩ = .error msg ∧
        mentions msg "unknown preset")
    ∧ (BankDef.mk "B" [SceneDef.mk "s" MatrixPreset.Solo0]).scenes ≠ [] :=
  ⟨bank_loader_contract.1 ⟨[]⟩ rfl,
   bank_loader_contract.2.1,
   bank_loader_contract.2.2.1 ⟨[⟨"B", [⟨"s", "solOO"⟩]⟩]⟩
     ⟨⟨"B", [⟨"s", "solOO"⟩]⟩, by simp, ⟨"s", "solOO"⟩, by simp, rfl⟩,
   bank_loader_contract.2.2.2 ⟨[⟨"B", [⟨"s", "solo0"⟩]⟩]⟩
     ⟨[BankDef.mk "B" [SceneDef.mk "s" MatrixPreset.Solo0]]⟩ rfl
     (BankDef.mk "B" [SceneDef.mk "s" MatrixPreset.Solo0]) (by simp)⟩

/-! ### Output naming lemmas (towards C1 and C8) -/

theorem alookup_append_left {alpha beta : Type} [DecidableEq alpha]
    {l1 l2 : List (alpha × beta)} {k : alpha} {v : beta}
    (h : alookup l1 k = some v) : alookup (l1 ++ l2) k = some v := by
  unfold alookup at h ⊢
  rw [List.find?_append]
  cases hf : l1.find? (fun p => p.1 = k) with
  | none => rw [hf] at h; cases h
  | some x => rw [hf] at h; simpa using h

theorem alookup_append_self {alpha beta : Type} [DecidableEq alpha]
    (l : List (alpha × beta)) (k : alpha) (v : beta) :
    (alookup (l ++ [(k, v)]) k).isSome := by
  unfold alookup
  rw [List.find?_append]
  cases hf : l.find? (fun p => p.1 = k) with
  | none => simp
  | some x => simp

/-- With no explicit names supplied, the naming loop of
`execute_plan_outputs` skips every node and returns its accumulator. -/
theorem outputsNamingLoop_no_names (g : Graph) (targets : List (NodeId × PingPong)) :
    ∀ (nids : List NodeId) (acc : List (String × ExecOutput)),
      outputsNamingLoop g targets [] nids acc = .ok acc
  | [], _ => rfl
  | nid :: rest, acc => by
      cases hg : g.node nid with
      | none => simp [outputsNamingLoop, hg, outputsNamingLoop_no_names g targets rest acc]
      | some node =>
        by_cases hk : node.kind ≠ NodeKind.PixelsOut
        · simp [outputsNamingLoop, hg, hk,
            outputsNamingLoop_no_names g targets rest acc]
        · simp [outputsNamingLoop, hg, hk, alookup,
            outputsNamingLoop_no_names g targets rest acc]

/-- On success the naming loop only ever appends to its accumulator: earlier
bindings keep their values. -/
theorem outputsNamingLoop_acc_mono {g : Graph} {targets : List (NodeId × PingPong)}
    {outputNames : List (NodeId × String)} :
    ∀ {nids : List NodeId} {acc res : List (String × ExecOutput)},
      outputsNamingLoop g targets outputNames nids acc = .ok res →
      ∀ k v, alookup acc k = some v → alookup res k = some v := by
  intro nids
  induction nids with
  | nil =>
    intro acc res h k v hk
    cases h
    exact hk
  | cons nid rest ih =>
    intro acc res h k v hk
    rw [outputsNamingLoop] at h
    cases hg : g.node nid with
    | none =>
      rw [hg] at h
      exact ih h k v hk
    | some node =>
      rw [hg] at h
      dsimp only at h
      by_cases hkind : node.kind ≠ NodeKind.PixelsOut
      · rw [if_pos hkind] at h
        exact ih h k v hk
      · rw [if_neg hkind] at h
        cases hnm : alookup outputNames node.id with
        | none =>
          rw [hnm] at h
          exact ih h k v hk
        | some name =>
          rw [hnm] at h
          dsimp only at h
          by_cases hmain : name = "main"
          · rw [if_pos hmain] at h; cases h
          · rw [if_neg hmain] at h
            by_cases hdup : (alookup acc name).isSome = true
            · rw [if_pos hdup] at h; cases h
            · rw [if_neg hdup] at h
              cases hres : resolvePixelsOut g targets node.id with
              | error e => rw [hres] at h; cases h
              | ok out =>
                rw [hres] at h
                exact ih h k v (alookup_append_left hk)

/-- If some plan node is a `PixelsOut` explicitly named `main`, the naming
loop fails. -/
theorem outputsNamingLoop_err_of_main {g : Graph} {targets : List (NodeId × PingPong)}
    {outputNames : List (NodeId × String)} :
    ∀ {nids : List NodeId} {acc : List (String × ExecOutput)},
      (∃ nid ∈ nids, ∃ n, g.node nid = some n ∧ n.kind = NodeKind.PixelsOut ∧
        alookup outputNames n.id = some "main") →
      isError (outputsNamingLoop g targets outputNames nids acc) = true := by
  intro nids
  induction nids with
  | nil => intro acc h; simp at h
  | cons nid rest ih =>
    intro acc h
    rcases h with ⟨m, hm, n, hn, hkind, hname⟩
    rcases List.mem_cons.mp hm with rfl | hmr
    · simp [outputsNamingLoop, hn, hkind, hname, isError]
    · cases hg : g.node nid with
      | none =>
        simpa [outputsNamingLoop, hg] using ih ⟨m, hmr, n, hn, hkind, hname⟩
      | some node =>
        by_cases hk : node.kind ≠ NodeKind.PixelsOut
        · simpa [outputsNamingLoop, hg, hk] using ih ⟨m, hmr, n, hn, hkind, hname⟩
        · cases hnm : alookup outputNames node.id with
          | none =>
            simpa [outputsNamingLoop, hg, hk, hnm] using ih ⟨m, hmr, n, hn, hkind, hname⟩
          | some name =>
            by_cases hmain : name = "main"
            · simp [outputsNamingLoop, hg, hk, hnm, hmain, isError]
            · by_cases hdup : (alookup acc name).isSome = true
              · simp [outputsNamingLoop, hg, hk, hnm, hmain, hdup, isError]
              · cases hres : resolvePixelsOut g targets node.id with
                | error e =>
                  simp [outputsNamingLoop, hg, hk, hnm, hmain, hdup, hres, isError]
                | ok out =>
                  simpa [outputsNamingLoop, hg, hk, hnm, hmain, hdup, hres]
                    using ih ⟨m, hmr, n, hn, hkind, hname⟩

/-- If some plan node is a `PixelsOut` whose explicit name already has a
binding in the accumulator, the naming loop fails. -/
theorem outputsNamingLoop_err_of_seen {g : Graph} {targets : List (NodeId × PingPong)}
    {outputNames : List (NodeId × String)} :
    ∀ {nids : List NodeId} {acc : List (String × ExecOutput)},
      (∃ nid ∈ nids, ∃ n, g.node nid = some n ∧ n.kind = NodeKind.PixelsOut ∧
        ∃ nm, alookup outputNames n.id = some nm ∧ (alookup acc nm).isSome = true) →
      isError (outputsNamingLoop g targets outputNames nids acc) = true := by
  intro nids
  induction nids with
  | nil => intro acc h; simp at h
  | cons nid rest ih =>
    intro acc h
    rcases h with ⟨m, hm, n, hn, hkind, nm, hname, hseen⟩
    rcases List.mem_cons.mp hm with rfl | hmr
    · by_cases hmain : nm = "main"
      · simp [outputsNamingLoop, hn, hkind, hname, hmain, isError]
      · simp [outputsNamingLoop, hn, hkind, hname, hmain, hseen, isError]
    · cases hg : g.node nid with
      | none =>
        simpa [outputsNamingLoop, hg] using ih ⟨m, hmr, n, hn, hkind, nm, hname, hseen⟩
      | some node =>
        by_cases hk : node.kind ≠ NodeKind.PixelsOut
        · simpa [outputsNamingLoop, hg, hk]
            using ih ⟨m, hmr, n, hn, hkind, nm, hname, hseen⟩
        · cases hnm : alookup outputNames node.id with
          | none =>
            simpa [outputsNamingLoop, hg, hk, hnm]
              using ih ⟨m, hmr, n, hn, hkind, nm, hname, hseen⟩
          | some name =>
            by_cases hmain : name = "main"
            · simp [outputsNamingLoop, hg, hk, hnm, hmain, isError]
            · by_cases hdup : (alookup acc name).isSome = true
              · simp [outputsNamingLoop, hg, hk, hnm, hmain, hdup, isError]
              · cases hres : resolvePixelsOut g targets node.id with
                | error e =>
                  simp [outputsNamingLoop, hg, hk, hnm, hmain, hdup, hres, isError]
                | ok out =>
                  have hseen2 : (alookup (acc ++ [(name, out)]) nm).isSome = true := by
                    cases hv : alookup acc nm with
                    | none => rw [hv] at hseen; cases hseen
                    | some v => simp [alookup_append_left hv]
                  simpa [outputsNamingLoop, hg, hk, hnm, hmain, hdup, hres]
                    using ih ⟨m, hmr, n, hn, hkind, nm, hname, hseen2⟩

/-- If two distinct plan nodes are `PixelsOut` nodes carrying the same
explicit name, the naming loop fails. -/
theorem outputsNamingLoop_err_of_dup {g : Graph} {targets : List (NodeId × PingPong)}
    {outputNames : List (NodeId × String)} :
    ∀ {nids : List NodeId} {acc : List (String × ExecOutput)}
      (nid1 nid2 : NodeId), nid1 ∈ nids → nid2 ∈ nids → nid1 ≠ nid2 →
      ∀ (n1 n2 : Node) (nm : String), g.node nid1 = some n1 → g.node nid2 = some n2 →
        n1.kind = NodeKind.PixelsOut → n2.kind = NodeKind.PixelsOut →
        alookup outputNames n1.id = some nm → alookup outputNames n2.id = some nm →
        isError (outputsNamingLoop g targets outputNames nids acc) = true := by
  intro nids
  induction nids with
  | nil => intro acc nid1 nid2 h1 h2; simp at h1
  | cons nid rest ih =>
    intro acc nid1 nid2 h1 h2 hne n1 n2 nm hn1 hn2 hk1 hk2 hm1 hm2
    rcases List.mem_cons.mp h1 with rfl | h1r
    · -- head is nid1
      have h2r : nid2 ∈ rest := by
        rcases List.mem_cons.mp h2 with rfl | h2r
        · exact absurd rfl hne
        · exact h2r
      by_cases hmain : nm = "main"
      · simp [outputsNamingLoop, hn1, hk1, hm1, hmain, isError]
      · by_cases hdup : (alookup acc nm).isSome = true
        · simp [outputsNamingLoop, hn1, hk1, hm1, hmain, hdup, isError]
        · cases hres : resolvePixelsOut g targets n1.id with
          | error e =>
            simp [outputsNamingLoop, hn1, hk1, hm1, hmain, hdup, hres, isError]
          | ok out =>
            have hseen := alookup_append_self acc nm out
            simpa [outputsNamingLoop, hn1, hk1, hm1, hmain, hdup, hres]
              using outputsNamingLoop_err_of_seen
                ⟨nid2, h2r, n2, hn2, hk2, nm, hm2, hseen⟩
    · rcases List.mem_cons.mp h2 with rfl | h2r
      · -- head is nid2
        by_cases hmain : nm = "main"
        · simp [outputsNamingLoop, hn2, hk2, hm2, hmain, isError]
        · by_cases hdup : (alookup acc nm).isSome = true
          · simp [outputsNamingLoop, hn2, hk2, hm2, hmain, hdup, isError]
          · cases hres : resolvePixelsOut g targets n2.id with
            | error e =>
              simp [outputsNamingLoop, hn2, hk2, hm2, hmain, hdup, hres, isError]
            | ok out =>
              have hseen := alookup_append_self acc nm out
              simpa [outputsNamingLoop, hn2, hk2, hm2, hmain, hdup, hres]
                using outputsNamingLoop_err_of_seen
                  ⟨nid1, h1r, n1, hn1, hk1, nm, hm1, hseen⟩
      · -- head is neither
        cases hg : g.node nid with
        | none =>
          simpa [outputsNamingLoop, hg]
            using ih nid1 nid2 h1r h2r hne n1 n2 nm hn1 hn2 hk1 hk2 hm1 hm2
        | some node =>
          by_cases hk : node.kind ≠ NodeKind.PixelsOut
          · simpa [outputsNamingLoop, hg, hk]
              using ih nid1 nid2 h1r h2r hne n1 n2 nm hn1 hn2 hk1 hk2 hm1 hm2
          · cases hnm : alookup outputNames node.id with
            | none =>
              simpa [outputsNamingLoop, hg, hk, hnm]
                using ih nid1 nid2 h1r h2r hne n1 n2 nm hn1 hn2 hk1 hk2 hm1 hm2
            | some name =>
              by_cases hmain : name = "main"
              · simp [outputsNamingLoop, hg, hk, hnm, hmain, isError]
              · by_cases hdup : (alookup acc name).isSome = true
                · simp [outputsNamingLoop, hg, hk, hnm, hmain, hdup, isError]
                · cases hres : resolvePixelsOut g targets node.id with
                  | error e =>
                    simp [outputsNamingLoop, hg, hk, hnm, hmain, hdup, hres, isError]
                  | ok out =>
                    simpa [outputsNamingLoop, hg, hk, hnm, hmain, hdup, hres]
                      using ih nid1 nid2 h1r h2r hne n1 n2 nm hn1 hn2 hk1 hk2 hm1 hm2

/-- C8: in `execute_plan_outputs`, an Output node explicitly named `main`
makes the call fail (the name is reserved); two distinct Output nodes carrying
the same explicit name make the call fail (duplicate name); and on success the
already-resolved primary output is untouched: the result's `primary` is the
value `execute_plan` produced, still bound to the name `main`. -/
theorem execute_plan_outputs_naming_rules (g : Graph) (pl : Plan)
    (targets : List (NodeId × PingPong)) (outputNames : List (NodeId × String))
    (primary : ExecOutput) :
    ((∃ nid ∈ pl.nodes, ∃ n, g.node nid = some n ∧ n.kind = NodeKind.PixelsOut ∧
        alookup outputNames n.id = some "main") →
      isError (executePlanOutputsNaming g pl targets outputNames primary) = true)
    ∧ (∀ nid1 nid2, nid1 ∈ pl.nodes → nid2 ∈ pl.nodes → nid1 ≠ nid2 →
        ∀ n1 n2 nm, g.node nid1 = some n1 → g.node nid2 = some n2 →
          n1.kind = NodeKind.PixelsOut → n2.kind = NodeKind.PixelsOut →
          alookup outputNames n1.id = some nm → alookup outputNames n2.id = some nm →
          isError (executePlanOutputsNaming g pl targets outputNames primary) = true)
    ∧ (∀ res, executePlanOutputsNaming g pl targets outputNames primary = .ok res →
        res.primary = primary ∧ alookup res.named "main" = some primary) := by
  refine ⟨?_, ?_, ?_⟩
  · intro h
    have hth := @outputsNamingLoop_err_of_main g targets outputNames pl.nodes
      [("main", primary)] h
    unfold executePlanOutputsNaming
    cases hl : outputsNamingLoop g targets outputNames pl.nodes [("main", primary)] with
    | error e => simp [isError]
    | ok l => rw [hl] at hth; simp [isError] at hth
  · intro nid1 nid2 h1 h2 hne n1 n2 nm hn1 hn2 hk1 hk2 hm1 hm2
    have hth := @outputsNamingLoop_err_of_dup g targets outputNames pl.nodes
      [("main", primary)] nid1 nid2 h1 h2 hne n1 n2 nm hn1 hn2 hk1 hk2 hm1 hm2
    unfold executePlanOutputsNaming
    cases hl : outputsNamingLoop g targets outputNames pl.nodes [("main", primary)] with
    | error e => simp [isError]
    | ok l => rw [hl] at hth; simp [isError] at hth
  · intro res h
    unfold executePlanOutputsNaming at h
    cases hl : outputsNamingLoop g targets outputNames pl.nodes [("main", primary)] with
    | error e => rw [hl] at h; cases h
    | ok l =>
      rw [hl] at h
      cases h
      exact ⟨rfl, outputsNamingLoop_acc_mono hl "main" primary rfl⟩

/-- Witness for `execute_plan_outputs_naming_rules` on concrete graphs: an
explicit `main` on node 2 fails; `aux` on both nodes 2 and 3 fails; with
distinct names the primary comes through bound to `main`. -/
theorem execute_plan_outputs_naming_rules_witness :
    isError (executePlanOutputsNaming twoOutGraph ⟨[0, 1, 2], twoOutGraph.edges⟩
        [(0, pp640)] [(2, "main")] out640) = true
    ∧ isError (executePlanOutputsNaming threeOutGraph ⟨[0, 1, 2, 3], threeOutGraph.edges⟩
        [(0, pp640)] [(2, "aux"), (3, "aux")] out640) = true
    ∧ ((ExecOutputs.mk out640 [("main", out640), ("aux", out640), ("bux", out640)]).primary
          = out640
        ∧ alookup (ExecOutputs.mk out640
            [("main", out640), ("aux", out640), ("bux", out640)]).named "main"
          = some out640) :=
  ⟨(execute_plan_outputs_naming_rules twoOutGraph ⟨[0, 1, 2], twoOutGraph.edges⟩
      [(0, pp640)] [(2, "main")] out640).1
      ⟨2, by decide, ⟨2, .PixelsOut, [⟨3, "in", .In⟩]⟩, by decide, rfl, by decide⟩,
   (execute_plan_outputs_naming_rules threeOutGraph ⟨[0, 1, 2, 3], threeOutGraph.edges⟩
      [(0, pp640)] [(2, "aux"), (3, "aux")] out640).2.1
      2 3 (by decide) (by decide) (by decide)
      ⟨2, .PixelsOut, [⟨3, "in", .In⟩]⟩ ⟨3, .PixelsOut, [⟨4, "in", .In⟩]⟩ "aux"
      (by decide) (by decide) rfl rfl (by decide) (by decide),
   (execute_plan_outputs_naming_rules threeOutGraph ⟨[0, 1, 2, 3], threeOutGraph.edges⟩
      [(0, pp640)] [(2, "aux"), (3, "bux")] out640).2.2
      (ExecOutputs.mk out640 [("main", out640), ("aux", out640), ("bux", out640)]) rfl⟩

/-! ### `plan_output_names` lemmas (towards C1) -/

theorem planOutputNamesLoop_unnamed :
    ∀ {l : List (NodeId × Option String)} {unnamed : List NodeId}
      {named : List (String × NodeId)} {seen : List String}
      {u : List NodeId} {nm : List (String × NodeId)},
      planOutputNamesLoop l unnamed named seen = .ok (u, nm) →
      u = unnamed ++ (l.filter (fun x => x.2.isNone)).map Prod.fst := by
  intro l
  induction l with
  | nil =>
    intro unnamed named seen u nm h
    cases h
    simp
  | cons x rest ih =>
    intro unnamed named seen u nm h
    obtain ⟨id, nameOpt⟩ := x
    cases nameOpt with
    | none =>
      rw [planOutputNamesLoop] at h
      have hu := ih h
      simp [hu, List.filter_cons]
    | some n =>
      rw [planOutputNamesLoop] at h
      by_cases hmain : n = "main"
      · rw [if_pos hmain] at h; cases h
      · rw [if_neg hmain] at h
        by_cases hseen : seen.contains n = true
        · rw [if_pos hseen] at h; cases h
        · rw [if_neg hseen] at h
          have hu := ih h
          simp [hu, List.filter_cons]

theorem planOutputNames_ok_unnamed {l : List (NodeId × Option String)}
    {p : OutputNamePlan} (h : planOutputNames l = .ok p) :
    (l.filter (fun x => x.2.isNone)).map Prod.fst = [p.primary] := by
  unfold planOutputNames at h
  by_cases hl : l = []
  · rw [if_pos hl] at h; cases h
  · rw [if_neg hl] at h
    cases hloop : planOutputNamesLoop l [] [] [] with
    | error e => rw [hloop] at h; cases h
    | ok unm =>
      obtain ⟨u, nm⟩ := unm
      rw [hloop] at h
      dsimp only at h
      by_cases hu : u.length = 1
      · rw [dif_pos hu] at h
        have hu2 := planOutputNamesLoop_unnamed hloop
        simp only [List.nil_append] at hu2
        cases h
        rcases List.length_eq_one.mp hu with ⟨a, ha⟩
        subst ha
        simp only [List.head_cons]
        exact hu2.symm
      · rw [dif_neg hu] at h; cases h

theorem planOutputNames_err_count {l : List (NodeId × Option String)}
    (h : (l.filter (fun x => x.2.isNone)).length ≠ 1) :
    isError (planOutputNames l) = true := by
  unfold planOutputNames
  by_cases hl : l = []
  · rw [if_pos hl]; rfl
  · rw [if_neg hl]
    cases hloop : planOutputNamesLoop l [] [] [] with
    | error e => rfl
    | ok unm =>
      obtain ⟨u, nm⟩ := unm
      dsimp only
      have hu2 := planOutputNamesLoop_unnamed hloop
      simp only [List.nil_append] at hu2
      have hne : ¬ u.length = 1 := by
        rw [hu2]
        simpa using h
      rw [dif_neg hne]
      rfl

/-- C1 counterexample: a graph with **two** unnamed `PixelsOut` nodes (the
Parameter Store carries no explicit output names at all), whose plan resolves
successfully through `execute_plan_outputs` — the claim says resolution must
fail with two-or-more unnamed Outputs, but the implementation ignores unnamed
outputs (explicit-only policy) and never counts them. -/
theorem execute_plan_outputs_two_unnamed_ok :
    twoOutGraph.compile = .ok ⟨[0, 1, 2], twoOutGraph.edges⟩
    ∧ (twoOutGraph.nodes.filter (fun n => n.kind = NodeKind.PixelsOut)).length = 2
    ∧ executePlanOutputsNaming twoOutGraph ⟨[0, 1, 2], twoOutGraph.edges⟩
        [(0, pp640)] [] out640 = .ok ⟨out640, [("main", out640)]⟩ :=
  ⟨rfl, rfl, rfl⟩

/-- C1 (amended): the multi-output contract lives in `plan_output_names`, not
in `execute_plan_outputs`: `plan_output_names` succeeds only when exactly one
Output is unnamed (that node becomes the implicit primary), and fails whenever
the unnamed count differs from one; `execute_plan_outputs` itself performs no
such count — with no explicit names it always succeeds, exposing just the
primary under `main`. -/
theorem plan_output_names_contract (l : List (NodeId × Option String)) :
    (∀ p, planOutputNames l = .ok p →
        (l.filter (fun x => x.2.isNone)).map Prod.fst = [p.primary])
    ∧ ((l.filter (fun x => x.2.isNone)).length ≠ 1 →
        isError (planOutputNames l) = true)
    ∧ (∀ (g : Graph) (pl : Plan) (targets : List (NodeId × PingPong))
        (primary : ExecOutput),
        executePlanOutputsNaming g pl targets [] primary =
          .ok ⟨primary, [("main", primary)]⟩) := by
  refine ⟨fun p h => planOutputNames_ok_unnamed h, planOutputNames_err_count, ?_⟩
  intro g pl targets primary
  unfold executePlanOutputsNaming
  rw [outputsNamingLoop_no_names g targets pl.nodes [("main", primary)]]

/-- Witness for `plan_output_names_contract` on concrete output lists. -/
theorem plan_output_names_contract_witness :
    ([((1 : NodeId), (none : Option String)), (2, some "x"), (3, some "y")].filter
        (fun x => x.2.isNone)).map Prod.fst
      = [(OutputNamePlan.mk 1 [("x", 2), ("y", 3)]).primary]
    ∧ isError (planOutputNames [((1 : NodeId), (none : Option String)), (2, none)]) = true
    ∧ executePlanOutputsNaming twoOutGraph ⟨[0, 1, 2], twoOutGraph.edges⟩
        [(0, pp640)] [] out640 = .ok ⟨out640, [("main", out640)]⟩ :=
  ⟨(plan_output_names_contract [((1 : NodeId), none), (2, some "x"), (3, some "y")]).1
      (OutputNamePlan.mk 1 [("x", 2), ("y", 3)]) rfl,
   (plan_output_names_contract [((1 : NodeId), none), (2, none)]).2.1 (by decide),
   (plan_output_names_contract []).2.2 twoOutGraph ⟨[0, 1, 2], twoOutGraph.edges⟩
      [(0, pp640)] out640⟩

/-! ### Compile lemmas (towards C2 and C5) -/

theorem compileLoop_eq (edges : List Edge) :
    ∀ order : List Node, compileLoop edges order =
      if order.any (outputUndriven edges) then
        some "compile: output input not connected"
      else none
  | [] => rfl
  | n :: rest => by
      by_cases h : outputUndriven edges n = true
      · simp [compileLoop, h]
      · simp [compileLoop, h, compileLoop_eq edges rest]

theorem compileWithOrder_eq (g : Graph) (order : List Node) :
    g.compileWithOrder order =
      if order.any (outputUndriven g.edges) then
        .error "compile: output input not connected"
      else .ok ⟨List.insertionSort (· ≤ ·) (order.map (fun n => n.id)), g.edges⟩ := by
  unfold Graph.compileWithOrder
  rw [compileLoop_eq]
  by_cases h : order.any (outputUndriven g.edges) = true <;> simp [h]

theorem perm_any_eq {alpha : Type} (p : alpha → Bool) {l1 l2 : List alpha}
    (h : l1.Perm l2) : l1.any p = l2.any p := by
  cases h2 : l2.any p
  · rw [List.any_eq_false] at h2 ⊢
    intro x hx
    exact h2 x (h.mem_iff.mp hx)
  · rw [List.any_eq_true] at h2 ⊢
    obtain ⟨x, hx, hp⟩ := h2
    exact ⟨x, h.mem_iff.mpr hx, hp⟩

/-- `connect` never touches the node map (success appends an edge, every
error path returns the graph unchanged). -/
theorem connect_nodes (g : Graph) (f t : Endpoint) :
    (g.connect f t).2.nodes = g.nodes := by
  unfold Graph.connect
  split_ifs <;> rfl

theorem connectNamed_nodes (g : Graph) (a : NodeId) (b : String) (c : NodeId)
    (d : String) : (g.connectNamed a b c d).2.nodes = g.nodes := by
  unfold Graph.connectNamed
  cases g.findPort a b .Out with
  | none => rfl
  | some fp =>
    cases g.findPort c d .In with
    | none => rfl
    | some tp => exact connect_nodes g _ _

theorem applyOp_wf {g : Graph} (hw : outputsWF g) (op : BuildOp) :
    outputsWF (applyOp g op) := by
  cases op with
  | addNode kind =>
    intro n hn hcls
    unfold applyOp Graph.addNode at hn
    dsimp only at hn
    rcases List.mem_append.mp hn with hmem | hmem
    · exact hw n hmem hcls
    · rw [List.mem_singleton] at hmem
      subst hmem
      dsimp only at hcls ⊢
      cases kind <;>
        first
          | exact absurd hcls (by decide)
          | exact ⟨g.nextPort, rfl⟩
  | connect f t =>
    intro n hn hcls
    rw [applyOp, connect_nodes] at hn
    exact hw n hn hcls
  | connectNamed a b c d =>
    intro n hn hcls
    rw [applyOp, connectNamed_nodes] at hn
    exact hw n hn hcls

theorem buildGraph_wf_aux :
    ∀ (ops : List BuildOp) (g : Graph), outputsWF g → outputsWF (ops.foldl applyOp g)
  | [], _, hg => hg
  | op :: rest, g, hg => buildGraph_wf_aux rest (applyOp g op) (applyOp_wf hg op)

theorem buildGraph_wf (ops : List BuildOp) : outputsWF (buildGraph ops) :=
  buildGraph_wf_aux ops Graph.new (fun n hn => by cases hn)

/-- Under Output-node well-formedness, the `compile` validation test fires on
some node exactly when the claim's condition holds: an Output-class node with
an In port that no edge drives. -/
theorem any_undriven_iff {g : Graph} (hw : outputsWF g) :
    g.nodes.any (outputUndriven g.edges) = true ↔
      ∃ n ∈ g.nodes, n.kind.classOf = NodeClass.Output ∧
        ∃ p ∈ n.ports, p.dir = PortDir.In ∧
          ¬ ∃ e ∈ g.edges, e.toEp = ⟨n.id, p.id, PortDir.In⟩ := by
  rw [List.any_eq_true]
  constructor
  · rintro ⟨n, hn, hund⟩
    unfold outputUndriven at hund
    rw [Bool.and_eq_true] at hund
    obtain ⟨hcls, hrest⟩ := hund
    rw [decide_eq_true_eq] at hcls
    obtain ⟨pid, hports⟩ := hw n hn hcls
    rw [hports] at hrest
    have hfind : List.find? (fun p => decide (p.dir = PortDir.In))
        [Port.mk pid "in" PortDir.In] = some (Port.mk pid "in" PortDir.In) := rfl
    rw [hfind] at hrest
    dsimp only at hrest
    refine ⟨n, hn, hcls, ⟨pid, "in", PortDir.In⟩, by simp [hports], rfl, ?_⟩
    rintro ⟨e, he, het⟩
    rw [Bool.not_eq_true', List.any_eq_false] at hrest
    exact hrest e he (decide_eq_true het)
  · rintro ⟨n, hn, hcls, p, hp, hdir, hne⟩
    obtain ⟨pid, hports⟩ := hw n hn hcls
    have hpeq : p = ⟨pid, "in", PortDir.In⟩ := by
      rw [hports] at hp
      simpa using hp
    refine ⟨n, hn, ?_⟩
    unfold outputUndriven
    rw [Bool.and_eq_true, decide_eq_true_eq]
    refine ⟨hcls, ?_⟩
    rw [hports]
    have hfind : List.find? (fun p => decide (p.dir = PortDir.In))
        [Port.mk pid "in" PortDir.In] = some (Port.mk pid "in" PortDir.In) := rfl
    rw [hfind]
    dsimp only
    rw [Bool.not_eq_true', List.any_eq_false]
    intro e he hdec
    have hc : e.toEp = ⟨n.id, pid, PortDir.In⟩ := of_decide_eq_true hdec
    refine hne ⟨e, he, ?_⟩
    rw [hpeq]
    exact hc

/-- C2: `Graph::compile()` errors exactly when some Output-class node's In
port has no driving edge; on success the Plan holds the graph's node ids
sorted ascending plus a snapshot of the edge list.  Quantified over every
graph reachable through the public API (`buildGraph`). -/
theorem graph_compile_error_iff (ops : List BuildOp) :
    (isError ((buildGraph ops).compile) = true ↔
      ∃ n ∈ (buildGraph ops).nodes, n.kind.classOf = NodeClass.Output ∧
        ∃ p ∈ n.ports, p.dir = PortDir.In ∧
          ¬ ∃ e ∈ (buildGraph ops).edges, e.toEp = ⟨n.id, p.id, PortDir.In⟩)
    ∧ ∀ pl, (buildGraph ops).compile = .ok pl →
        pl.nodes.Sorted (· ≤ ·)
        ∧ pl.nodes.Perm ((buildGraph ops).nodes.map (fun n => n.id))
        ∧ pl.edges = (buildGraph ops).edges := by
  have hw := buildGraph_wf ops
  constructor
  · rw [show (buildGraph ops).compile =
        (buildGraph ops).compileWithOrder (buildGraph ops).nodes from rfl,
      compileWithOrder_eq, ← any_undriven_iff hw]
    by_cases h : (buildGraph ops).nodes.any (outputUndriven (buildGraph ops).edges) = true
    · simp [h, isError]
    · simp [h, isError]
  · intro pl hpl
    rw [show (buildGraph ops).compile =
        (buildGraph ops).compileWithOrder (buildGraph ops).nodes from rfl,
      compileWithOrder_eq] at hpl
    by_cases h : (buildGraph ops).nodes.any (outputUndriven (buildGraph ops).edges) = true
    · rw [if_pos h] at hpl; cases hpl
    · rw [if_neg h] at hpl
      cases hpl
      exact ⟨List.sorted_insertionSort _ _,
        (List.perm_insertionSort _ _),
        rfl⟩

/-- Witness for `graph_compile_error_iff` on the Source→Pass→Out chain. -/
theorem graph_compile_error_iff_witness :
    (buildGraph chainOps).compile = .ok ⟨[0, 1], (buildGraph chainOps).edges⟩
    ∧ (Plan.mk [0, 1] (buildGraph chainOps).edges).nodes.Sorted (· ≤ ·)
    ∧ (Plan.mk [0, 1] (buildGraph chainOps).edges).nodes.Perm
        ((buildGraph chainOps).nodes.map (fun n => n.id))
    ∧ (Plan.mk [0, 1] (buildGraph chainOps).edges).edges = (buildGraph chainOps).edges :=
  ⟨rfl, (graph_compile_error_iff chainOps).2 ⟨[0, 1], (buildGraph chainOps).edges⟩ rfl⟩

/-- C5: compilation is a deterministic function of the graph: whatever order
the node hash map yields its nodes in (two compiles of the same unmodified
graph may see two different orders), the resulting Plans are equal — in
particular the node-id sequences and edge counts agree — and the node order
is the ascending numeric-id sort. -/
theorem graph_compile_deterministic (g : Graph) (order1 order2 : List Node)
    (h1 : order1.Perm g.nodes) (h2 : order2.Perm g.nodes) :
    g.compileWithOrder order1 = g.compileWithOrder order2
    ∧ ∀ pl, g.compileWithOrder order1 = .ok pl → pl.nodes.Sorted (· ≤ ·) := by
  have hp : order1.Perm order2 := h1.trans h2.symm
  have hany := perm_any_eq (outputUndriven g.edges) hp
  constructor
  · rw [compileWithOrder_eq, compileWithOrder_eq, hany]
    by_cases h : order2.any (outputUndriven g.edges) = true
    · rw [if_pos h, if_pos h]
    · rw [if_neg h, if_neg h]
      have hs : List.insertionSort (· ≤ ·) (order1.map (fun n => n.id)) =
          List.insertionSort (· ≤ ·) (order2.map (fun n => n.id)) := by
        refine List.eq_of_perm_of_sorted ?_ (List.sorted_insertionSort _ _)
          (List.sorted_insertionSort _ _)
        exact ((List.perm_insertionSort _ _).trans (hp.map _)).trans
          (List.perm_insertionSort _ _).symm
      rw [hs]
  · intro pl hpl
    rw [compileWithOrder_eq] at hpl
    by_cases h : order1.any (outputUndriven g.edges) = true
    · rw [if_pos h] at hpl; cases hpl
    · rw [if_neg h] at hpl
      cases hpl
      exact List.sorted_insertionSort _ _

/-- Witness for `graph_compile_deterministic`: the chain graph compiled with
its node map iterated forwards and backwards. -/
theorem graph_compile_deterministic_witness :
    chainGraph.compileWithOrder chainGraph.nodes =
      chainGraph.compileWithOrder chainGraph.nodes.reverse
    ∧ ∀ pl, chainGraph.compileWithOrder chainGraph.nodes = .ok pl →
        pl.nodes.Sorted (· ≤ ·) :=
  graph_compile_deterministic chainGraph chainGraph.nodes chainGraph.nodes.reverse
    (List.Perm.refl _) (List.reverse_perm _)

/-! ### Input binding lemmas (towards C6) -/

theorem bindInputsLoop_eq_filterMap {g : Graph} {nid : NodeId} {historyTex : Nat}
    {outputs : List (NodeId × (Nat × Nat × Int × Int))}
    {targets : List (NodeId × PingPong)}
    {sourceOutputs : List (NodeId × (Nat × Int × Int))}
    {texInputs : List (NodeId × Nat)} :
    ∀ {es : List Edge} {l : List (Nat × Nat)},
      bindInputsLoop g nid historyTex outputs targets sourceOutputs texInputs es = .ok l →
      l = es.filterMap (fun e =>
        match bindStep g nid historyTex outputs targets sourceOutputs texInputs e with
        | .ok o => o
        | .error _ => none) := by
  intro es
  induction es with
  | nil =>
    intro l h
    cases h
    rfl
  | cons e rest ih =>
    intro l h
    rw [bindInputsLoop] at h
    cases hs : bindStep g nid historyTex outputs targets sourceOutputs texInputs e with
    | error msg => rw [hs] at h; cases h
    | ok o =>
      rw [hs] at h
      cases o with
      | none =>
        simp only [List.filterMap_cons, hs]
        exact ih h
      | some b =>
        cases hrest : bindInputsLoop g nid historyTex outputs targets sourceOutputs
            texInputs rest with
        | error m =>
          rw [hrest] at h
          simp [Except.map] at h
        | ok lr =>
          rw [hrest] at h
          simp only [Except.map] at h
          cases h
          simp only [List.filterMap_cons, hs]
          rw [ih hrest]

theorem computeInputs_ok_shape {g : Graph} {nid : NodeId} {historyTex : Nat}
    {outputs : List (NodeId × (Nat × Nat × Int × Int))}
    {targets : List (NodeId × PingPong)}
    {sourceOutputs : List (NodeId × (Nat × Int × Int))}
    {texInputs : List (NodeId × Nat)} {l : List (Nat × Nat)}
    (h : computeInputs g nid historyTex outputs targets sourceOutputs texInputs = .ok l) :
    ∃ l0, bindInputsLoop g nid historyTex outputs targets sourceOutputs texInputs
        (g.edges.filter (fun e => e.toEp.node = nid ∧ e.toEp.dir = PortDir.In)) = .ok l0
      ∧ l = List.insertionSort (fun a b : Nat × Nat => a.1 ≤ b.1) l0 := by
  unfold computeInputs at h
  cases hl : bindInputsLoop g nid historyTex outputs targets sourceOutputs texInputs
      (g.edges.filter (fun e => e.toEp.node = nid ∧ e.toEp.dir = PortDir.In)) with
  | error m => rw [hl] at h; simp at h
  | ok l0 =>
    rw [hl] at h
    simp at h
    exact ⟨l0, rfl, h.symm⟩

theorem sorted_nodup_key_eq {l1 l2 : List (Nat × Nat)} (hp : l1.Perm l2)
    (hnd : (l1.map Prod.fst).Nodup)
    (hs1 : l1.Sorted (fun a b => a.1 ≤ b.1))
    (hs2 : l2.Sorted (fun a b => a.1 ≤ b.1)) : l1 = l2 := by
  have hnd2 : (l2.map Prod.fst).Nodup := ((hp.map Prod.fst).nodup_iff).mp hnd
  have hne1 : l1.Pairwise (fun a b : Nat × Nat => a.1 ≠ b.1) :=
    (List.pairwise_map).mp hnd
  have hne2 : l2.Pairwise (fun a b : Nat × Nat => a.1 ≠ b.1) :=
    (List.pairwise_map).mp hnd2
  have hlt1 : l1.Sorted (fun a b : Nat × Nat => a.1 < b.1) :=
    (hs1.and hne1).imp (fun h => lt_of_le_of_ne h.1 h.2)
  have hlt2 : l2.Sorted (fun a b : Nat × Nat => a.1 < b.1) :=
    (hs2.and hne2).imp (fun h => lt_of_le_of_ne h.1 h.2)
  exact List.eq_of_perm_of_sorted hp hlt1 hlt2

/-- C6: the semantic port-name→channel map sends `in`, `in0` and `a` to
channel 0, `b` and `in1` to 1, `in2` to 2 and `in3` to 3 (for every node
kind); every successful per-node binding list is sorted ascending by channel;
and permuting the graph's edge list (any insertion order) yields the same
binding list whenever the channels are distinct. -/
theorem input_binding_contract :
    (∀ k, inputChannelFor k "in" = some 0 ∧ inputChannelFor k "in0" = some 0
       ∧ inputChannelFor k "a" = some 0 ∧ inputChannelFor k "b" = some 1
       ∧ inputChannelFor k "in1" = some 1 ∧ inputChannelFor k "in2" = some 2
       ∧ inputChannelFor k "in3" = some 3)
    ∧ (∀ g nid historyTex outputs targets sourceOutputs texInputs l,
        computeInputs g nid historyTex outputs targets sourceOutputs texInputs = .ok l →
        l.Sorted (fun a b => a.1 ≤ b.1))
    ∧ (∀ g edges2 nid historyTex outputs targets sourceOutputs texInputs l1 l2,
        edges2.Perm g.edges →
        computeInputs g nid historyTex outputs targets sourceOutputs texInputs = .ok l1 →
        computeInputs { g with edges := edges2 } nid historyTex outputs targets
          sourceOutputs texInputs = .ok l2 →
        (l1.map Prod.fst).Nodup → l1 = l2) := by
  refine ⟨?_, ?_, ?_⟩
  · intro k
    cases k <;> exact ⟨rfl, rfl, rfl, rfl, rfl, rfl, rfl⟩
  · intro g nid historyTex outputs targets sourceOutputs texInputs l h
    obtain ⟨l0, _, hl⟩ := computeInputs_ok_shape h
    rw [hl]
    exact List.sorted_insertionSort _ _
  · intro g edges2 nid historyTex outputs targets sourceOutputs texInputs l1 l2
      hperm h1 h2 hnd
    obtain ⟨x1, hx1, hl1⟩ := computeInputs_ok_shape h1
    obtain ⟨x2, hx2, hl2⟩ := computeInputs_ok_shape h2
    have hfm1 := bindInputsLoop_eq_filterMap hx1
    have hfm2 := bindInputsLoop_eq_filterMap hx2
    have hpf : (edges2.filter (fun e => e.toEp.node = nid ∧ e.toEp.dir = PortDir.In)).Perm
        (g.edges.filter (fun e => e.toEp.node = nid ∧ e.toEp.dir = PortDir.In)) :=
      hperm.filter _
    have hx : x2.Perm x1 := by
      rw [hfm1, hfm2]
      exact hpf.filterMap _
    have hp12 : l1.Perm l2 := by
      rw [hl1, hl2]
      exact ((List.perm_insertionSort _ _).trans hx.symm).trans
        (List.perm_insertionSort _ _).symm
    exact sorted_nodup_key_eq hp12 hnd
      (hl1 ▸ List.sorted_insertionSort _ _) (hl2 ▸ List.sorted_insertionSort _ _)

/-- Witness for `input_binding_contract`: the Crossfade mixer in `mixGraph`
with its `b` edge inserted first still binds channels `[0, 1]` in order. -/
theorem input_binding_contract_witness :
    (inputChannelFor .Crossfade "a" = some 0 ∧ inputChannelFor .Crossfade "in0" = some 0
      ∧ inputChannelFor .Crossfade "a" = some 0 ∧ inputChannelFor .Crossfade "b" = some 1
      ∧ inputChannelFor .Crossfade "in1" = some 1 ∧ inputChannelFor .Crossfade "in2" = some 2
      ∧ inputChannelFor .Crossfade "in3" = some 3)
    ∧ ([((0 : Nat), (20 : Nat)), (1, 30)].Sorted (fun a b => a.1 ≤ b.1))
    ∧ ([((0 : Nat), (20 : Nat)), (1, 30)] = [((0 : Nat), (20 : Nat)), (1, 30)]) := by
  refine ⟨?_, ?_, ?_⟩
  · exact ⟨rfl, rfl, rfl, rfl, rfl, rfl, rfl⟩
  · exact (input_binding_contract).2.1 mixGraph 2 99
      [(0, (20, 21, 1, 1)), (1, (30, 31, 1, 1))] [] [] [] _ rfl
  · exact (input_binding_contract).2.2 mixGraph mixGraph.edges.reverse 2 99
      [(0, (20, 21, 1, 1)), (1, (30, 31, 1, 1))] [] [] [] _ _
      (List.reverse_perm _) rfl rfl (by decide)

/-! ### Program cache lemmas (towards C7) -/

theorem alookup_cons {alpha beta : Type} [DecidableEq alpha] (k0 : alpha) (v0 : beta)
    (l : List (alpha × beta)) (k : alpha) :
    alookup ((k0, v0) :: l) k = if k0 = k then some v0 else alookup l k := by
  unfold alookup
  rw [List.find?_cons]
  by_cases h : k0 = k <;> simp [h]

theorem fetchProgram_spec {st : ProgState} {key : ProgramKey} (hinv : progInv st) :
    alookup (fetchProgram st key).2.programCache key = some (fetchProgram st key).1
    ∧ (∀ k v, alookup st.programCache k = some v →
        alookup (fetchProgram st key).2.programCache k = some v)
    ∧ progInv (fetchProgram st key).2
    ∧ (fetchProgram st key).2.programs = st.programs := by
  obtain ⟨hnd, hlog, hprog⟩ := hinv
  unfold fetchProgram
  cases hc : alookup st.programCache key with
  | some p => exact ⟨hc, fun k v hv => hv, ⟨hnd, hlog, hprog⟩, rfl⟩
  | none =>
    dsimp only
    have hmono : ∀ k v, alookup st.programCache k = some v →
        alookup ((key, st.nextProg) :: st.programCache) k = some v := by
      intro k v hv
      rw [alookup_cons]
      by_cases hk : key = k
      · rw [← hk] at hv
        rw [hv] at hc
        cases hc
      · rw [if_neg hk]
        exact hv
    have hnotin : key ∉ st.compileLog := by
      intro hmem
      have := hlog key hmem
      rw [hc] at this
      cases this
    refine ⟨?_, hmono, ⟨?_, ?_, ?_⟩, rfl⟩
    · rw [alookup_cons, if_pos rfl]
    · rw [List.nodup_append]
      exact ⟨hnd, List.nodup_singleton _, by
        intro k hk1 hk2
        rw [List.mem_singleton] at hk2
        subst hk2
        exact hnotin hk1⟩
    · intro k hk
      rcases List.mem_append.mp hk with hk1 | hk2
      · have := hlog k hk1
        cases hv : alookup st.programCache k with
        | none => rw [hv] at this; cases this
        | some v => rw [hmono k v hv]; rfl
      · rw [List.mem_singleton] at hk2
        subst hk2
        rw [alookup_cons, if_pos rfl]
        rfl
    · intro nid e he
      have := hprog nid e he
      exact hmono _ _ this

theorem rebindPrograms_finish {st1 : ProgState} {nid : NodeId} {p : Nat}
    {key : ProgramKey} (hinv : progInv st1)
    (ha : alookup st1.programCache key = some p) :
    finishProgram (rebindPrograms st1 nid p key) nid =
      .ok (p, rebindPrograms st1 nid p key)
    ∧ (rebindPrograms st1 nid p key).programCache = st1.programCache
    ∧ (rebindPrograms st1 nid p key).compileLog = st1.compileLog
    ∧ progInv (rebindPrograms st1 nid p key) := by
  obtain ⟨hnd, hlog, hprog⟩ := hinv
  unfold rebindPrograms
  by_cases hreb : (match alookup st1.programs nid with
      | some stored => decide (stored.key ≠ key)
      | none => true) = true
  · rw [if_pos hreb]
    refine ⟨?_, rfl, rfl, hnd, hlog, ?_⟩
    · unfold finishProgram
      dsimp only
      rw [alookup_cons, if_pos rfl]
    · intro nid2 e he
      dsimp only at he ⊢
      rw [alookup_cons] at he
      by_cases hn : nid = nid2
      · rw [if_pos hn] at he
        cases he
        exact ha
      · rw [if_neg hn] at he
        exact hprog nid2 e he
  · rw [if_neg hreb]
    cases hst : alookup st1.programs nid with
    | none => rw [hst] at hreb; simp at hreb
    | some stored =>
      rw [hst] at hreb
      simp only [decide_eq_true_eq, Decidable.not_not] at hreb
      have hkey : stored.key = key := hreb
      have hpe : stored.program = p := by
        have := hprog nid stored hst
        rw [hkey, ha] at this
        cases this
        rfl
      refine ⟨?_, rfl, rfl, hnd, hlog, hprog⟩
      unfold finishProgram
      rw [hst]
      dsimp only
      rw [hpe]

theorem ensureProgram_spec (hashStr : String → Nat) (st : ProgState) (nid : NodeId)
    (vert frag : String) (hinv : progInv st) :
    ∃ st2, ensureProgram hashStr st nid vert frag =
        .ok ((fetchProgram st (progKey hashStr vert frag)).1, st2)
      ∧ alookup st2.programCache (progKey hashStr vert frag) =
          some (fetchProgram st (progKey hashStr vert frag)).1
      ∧ (∀ k v, alookup st.programCache k = some v →
          alookup st2.programCache k = some v)
      ∧ progInv st2 := by
  obtain ⟨hkey, hmono, hinv1, _⟩ := @fetchProgram_spec st (progKey hashStr vert frag) hinv
  obtain ⟨hfin, hcache, _, hinv2⟩ := @rebindPrograms_finish _ nid _ _ hinv1 hkey
  refine ⟨rebindPrograms (fetchProgram st (progKey hashStr vert frag)).2 nid
      (fetchProgram st (progKey hashStr vert frag)).1 (progKey hashStr vert frag),
    hfin, ?_, ?_, hinv2⟩
  · rw [hcache]
    exact hkey
  · intro k v hv
    rw [hcache]
    exact hmono k v hv

theorem runPasses_spec (hashStr : String → Nat) :
    ∀ (passes : List (NodeId × String × String)) (st : ProgState), progInv st →
      ∃ hs st2, runPasses hashStr passes st = .ok (hs, st2)
        ∧ progInv st2
        ∧ (∀ k v, alookup st.programCache k = some v →
            alookup st2.programCache k = some v)
        ∧ hs.length = passes.length
        ∧ ∀ (i : Nat) (hi : i < passes.length) (hi2 : i < hs.length),
            alookup st2.programCache (keyOf hashStr (passes.get ⟨i, hi⟩)) =
              some (hs.get ⟨i, hi2⟩) := by
  intro passes
  induction passes with
  | nil =>
    intro st hinv
    exact ⟨[], st, rfl, hinv, fun k v hv => hv, rfl,
      fun i hi => absurd hi (by simp)⟩
  | cons pass rest ih =>
    intro st hinv
    obtain ⟨nid, vert, frag⟩ := pass
    obtain ⟨st1, hrun1, hkey1, hmono1, hinv1⟩ :=
      ensureProgram_spec hashStr st nid vert frag hinv
    obtain ⟨hs, st2, hrun2, hinv2, hmono2, hlen2, hidx2⟩ := ih st1 hinv1
    refine ⟨(fetchProgram st (progKey hashStr vert frag)).1 :: hs, st2, ?_, hinv2,
      ?_, ?_, ?_⟩
    · rw [runPasses, hrun1]
      dsimp only
      rw [hrun2]
    · intro k v hv
      exact hmono2 k v (hmono1 k v hv)
    · simp [hlen2]
    · intro i hi hi2
      cases i with
      | zero =>
        have := hmono2 _ _ hkey1
        simpa [keyOf, progKey] using this
      | succ j =>
        have hj : j < rest.length := by simpa using hi
        have hj2 : j < hs.length := by simpa using hi2
        simpa using hidx2 j hj hj2

/-- C7: within one RuntimeState (starting from empty caches), the executor
keys compiled programs by a hash of the (vertex, fragment) source text: for
**every** hash function — in particular the `DefaultHasher` the source uses —
any two render passes whose resolved vertex and fragment strings are
byte-identical receive the same compiled-program handle, and no key is ever
passed to `compile_program` twice (the compile log has no duplicates). -/
theorem program_cache_dedup (hashStr : String → Nat)
    (passes : List (NodeId × String × String)) :
    ∃ hs st2, runPasses hashStr passes ProgState.initial = .ok (hs, st2)
      ∧ hs.length = passes.length
      ∧ (∀ (i j : Nat) (hi : i < passes.length) (hj : j < passes.length)
            (hi2 : i < hs.length) (hj2 : j < hs.length),
          (passes.get ⟨i, hi⟩).2 = (passes.get ⟨j, hj⟩).2 →
          hs.get ⟨i, hi2⟩ = hs.get ⟨j, hj2⟩)
      ∧ st2.compileLog.Nodup := by
  have hinv0 : progInv ProgState.initial :=
    ⟨List.nodup_nil, fun k hk => absurd hk (List.not_mem_nil k),
     fun nid e h => by simp [alookup, ProgState.initial] at h⟩
  obtain ⟨hs, st2, hrun, hinv2, _, hlen, hidx⟩ :=
    runPasses_spec hashStr passes ProgState.initial hinv0
  refine ⟨hs, st2, hrun, hlen, ?_, hinv2.1⟩
  intro i j hi hj hi2 hj2 heq
  have h1 := hidx i hi hi2
  have h2 := hidx j hj hj2
  have hk : keyOf hashStr (passes.get ⟨i, hi⟩) = keyOf hashStr (passes.get ⟨j, hj⟩) := by
    unfold keyOf
    rw [heq]
  rw [hk] at h1
  exact Option.some.inj (h1.symm.trans h2)

/-- Witness for `program_cache_dedup`: three passes under the `String.length`
hash; the first two share byte-identical text and get handle 0, the third
compiles a second program, and exactly two distinct keys are ever compiled. -/
theorem program_cache_dedup_witness :
    ([0, 0, 1] : List Nat).get ⟨0, by decide⟩ = ([0, 0, 1] : List Nat).get ⟨1, by decide⟩
    ∧ progStateEx.compileLog.Nodup := by
  obtain ⟨hs, st2, hrun, hlen, heq, hnd⟩ := program_cache_dedup String.length
    [((0 : NodeId), "v", "f"), (1, "v", "f"), (2, "vv", "f")]
  have hval : runPasses String.length
      [((0 : NodeId), "v", "f"), (1, "v", "f"), (2, "vv", "f")] ProgState.initial
      = .ok ([0, 0, 1], progStateEx) := rfl
  rw [hval] at hrun
  injection hrun with hp
  have h1 : ([0, 0, 1] : List Nat) = hs := congrArg Prod.fst hp
  have h2 : progStateEx = st2 := congrArg Prod.snd hp
  subst h1
  subst h2
  exact ⟨heq 0 1 (by decide) (by decide) (by decide) (by decide) rfl, hnd⟩

end Scheng
